import Mathlib

/-!
# WebTail: the per-connection tail handler and the log inventory

A shallow embedding of `main.go` (package `main` of gosbak/webtail).

* `loadLogs` walks the log root with `filepath.Walk` and records every item the
  callback accepts in a `FileStore`.
* `tailHandler` is the websocket handler: a request loop that answers hostname,
  ping and listing requests and streams the lines of one followed file.

The outside world (the websocket peer, the file system, the follow primitive of
`hpcloud/tail`) is a script: every external call reads its result from the
script and leaves an `Event` in the trace, so that the behaviour of the code is
a pure function from scripts to traces.  A call that never returns ends the
trace and leaves the handler blocked.

Go strings are modelled by `String`; prefix, suffix and path operations work on
the character list.  Go `int64` values are modelled by `Int`, with an explicit
two's complement wrap where the code does arithmetic on them.
-/

namespace WebTail

/-! ## Go values -/

/-- Go `error` values that the program can tell apart, and all others by text. -/
inductive error where
  | EOF
  | SkipDir
  | SkipAll
  | text (msg : String)
  deriving DecidableEq, Repr

/-- The text `err.Error()` that `Println` and `Printf` write for an error. -/
def error.Error : error → String
  | .EOF => "EOF"
  | .SkipDir => "skip this directory"
  | .SkipAll => "skip everything and stop the walk"
  | .text msg => msg

/-- Two's complement wrap of an integer into the range of `int64`. -/
def wrapInt64 (x : Int) : Int := (x + 2 ^ 63) % 2 ^ 64 - 2 ^ 63

/-! ## strings and path -/

/-- Go `strings.TrimPrefix(s, pre)`: `s` without the leading `pre`, or `s`. -/
def TrimPrefix (s pre : String) : String :=
  if pre.data.isPrefixOf s.data then ⟨s.data.drop pre.data.length⟩ else s

/-- Go `strings.TrimSuffix(s, suf)`: `s` without the trailing `suf`, or `s`. -/
def TrimSuffix (s suf : String) : String :=
  if suf.data.isSuffixOf s.data then ⟨s.data.take (s.data.length - suf.data.length)⟩ else s

/-- The elements of a path between its slashes (`"a//b"` has the elements
`a`, the empty one, and `b`). -/
def splitSlash : List Char → List (List Char)
  | [] => [[]]
  | c :: cs =>
    if c = '/' then [] :: splitSlash cs
    else
      match splitSlash cs with
      | [] => [[c]]
      | p :: ps => (c :: p) :: ps

/-- One element of the path processed by `Clean`; the stack `st` holds the
elements written so far, the last one first.  Empty and `.` elements are
dropped; `..` removes the element before it when that is an ordinary name, is
dropped at the top of a rooted path, and is kept otherwise. -/
def cleanStep (rooted : Bool) (st : List (List Char)) (c : List Char) : List (List Char) :=
  if c = [] ∨ c = ['.'] then st
  else if c = ['.', '.'] then
    match st with
    | [] => if rooted then [] else [c]
    | top :: rest => if top = ['.', '.'] then c :: st else rest
  else c :: st

/-- The elements that remain of a path after `Clean`, the last one first. -/
def cleanStack (rooted : Bool) (p : List Char) : List (List Char) :=
  (splitSlash p).foldl (cleanStep rooted) []

/-- The text of a cleaned path from its elements. -/
def renderPath (rooted : Bool) (st : List (List Char)) : List Char :=
  let body := ['/'].intercalate st.reverse
  if rooted then '/' :: body else if body = [] then ['.'] else body

/-- Go `path.Clean` (and `filepath.Clean` on Unix) on character lists, by the
rules of its documentation: multiple slashes become one, `.` elements go, inner
`..` elements go with the name before them, `..` at the top of a rooted path
goes, and the empty result is `"."`. -/
def cleanChars (p : List Char) : List Char :=
  if p = [] then ['.']
  else
    let rooted := p.head? = some '/'
    renderPath rooted (cleanStack rooted p)

/-- Go `path.Clean`. -/
def Clean (p : String) : String := ⟨cleanChars p.data⟩

/-- Go `path.Join(a, b)` and `filepath.Join(a, b)`: the non-empty leading element
and what follows it joined by a slash, cleaned; the empty string when both are
empty. -/
def Join (a b : String) : String :=
  if a ≠ "" then Clean (a ++ "/" ++ b)
  else if b ≠ "" then Clean b
  else ""

/-! ## The file system under the log root -/

/-- The kinds of items that are not directories. -/
inductive LeafKind where
  | regular
  | symlink
  | socket
  | namedPipe
  | device
  deriving DecidableEq, Repr

/-- What `os.FileInfo` tells the program: `IsDir()`, `ModTime()`, `Size()`, and
whether the mode is that of a regular file. -/
structure FileInfo where
  IsDir : Bool
  IsRegular : Bool
  ModTime : Int
  Size : Int
  deriving DecidableEq, Repr

mutual
/-- An item of the file system as `filepath.Walk` meets it: an item whose
`Lstat` fails, an item that is not a directory, or a directory with the result
of reading its names (an error, or the entries in the order read). -/
inductive Node where
  | absent (err : error)
  | file (kind : LeafKind) (mtime size : Int)
  | dir (mtime size : Int) (readErr : Option error) (entries : Entries)
/-- The entries of a directory: a name and the item under it. -/
inductive Entries where
  | nil
  | cons (name : String) (node : Node) (rest : Entries)
end

/-- Whether `Lstat` succeeds on the item and reports a directory. -/
def Node.isDir : Node → Bool
  | .dir _ _ _ _ => true
  | _ => false

/-- Whether `Lstat` fails on the item. -/
def Node.isAbsent : Node → Bool
  | .absent _ => true
  | _ => false

/-! ## filepath.Walk -/

/-- How a call ends: it returns an error value (possibly nil), or it panics. -/
inductive Ret where
  | done (err : Option error)
  | panic (msg : String)
  deriving DecidableEq, Repr

/-- A `filepath.WalkFunc` closure: path, file info (nil when `Lstat` failed),
the error met on the way to the item, and the captured variables `σ`. -/
abbrev WalkFunc (σ : Type) := String → Option FileInfo → Option error → σ → σ × Ret

mutual
/-- The body of `filepath.Walk` for one item: `Lstat` the item; when that fails
call `fn` with a nil info and the error; when the item is not a directory call
`fn` on it; when it is a directory read its names, call `fn` with the read
error, and unless either failed walk the entries. -/
def visit {σ : Type} (fn : WalkFunc σ) (path : String) : Node → σ → σ × Ret
  | .absent err, s => fn path none (some err) s
  | .file kind mtime size, s =>
    fn path (some { IsDir := false, IsRegular := decide (kind = .regular),
                    ModTime := mtime, Size := size }) none s
  | .dir mtime size readErr entries, s =>
    match fn path (some { IsDir := true, IsRegular := false,
                          ModTime := mtime, Size := size }) readErr s with
    | (s1, .panic msg) => (s1, .panic msg)
    | (s1, .done err1) =>
      if readErr.isSome ∨ err1.isSome then (s1, .done err1)
      else walkNames fn path entries s1
/-- The loop of `walk` over the names of a directory: each entry is visited
under `Join(path, name)`; `SkipDir` from a directory or from a failed `Lstat`
is swallowed, any other error ends the walk. -/
def walkNames {σ : Type} (fn : WalkFunc σ) (path : String) : Entries → σ → σ × Ret
  | .nil, s => (s, .done none)
  | .cons name node rest, s =>
    match visit fn (Join path name) node s with
    | (s1, .panic msg) => (s1, .panic msg)
    | (s1, .done none) => walkNames fn path rest s1
    | (s1, .done (some err)) =>
      if err = .SkipDir ∧ (node.isAbsent ∨ node.isDir) then walkNames fn path rest s1
      else (s1, .done (some err))
end

/-- Go `filepath.Walk(root, fn)`, with the item found at `root` given. -/
def Walk {σ : Type} (root : String) (fn : WalkFunc σ) (node : Node) (s : σ) : σ × Ret :=
  match visit fn root node s with
  | (s1, .done (some err)) =>
    if err = .SkipDir ∨ err = .SkipAll then (s1, .done none) else (s1, .done (some err))
  | r => r

/-! ## Configuration and the inventory -/

/-- Flags defines local application flags. -/
structure Flags where
  Addr : String
  Host : String
  LogLevel : String
  Root : String
  Back : Int
  MaxLineSize : Int
  Poll : Bool
  Version : Bool

/-- Config holds all config vars. -/
structure Config extends Flags

/-- FileAttr holds File Attrs. -/
structure FileAttr where
  MTime : Int
  Size : Int
  deriving DecidableEq, Repr

/-- FileStore holds all log files attrs: a Go map, kept as the list of its
entries in the order the keys were first stored. -/
abbrev FileStore := List (String × FileAttr)

/-- The map assignment `files[k] = v`. -/
def FileStore.put : FileStore → String → FileAttr → FileStore
  | [], k, v => [(k, v)]
  | (k1, v1) :: rest, k, v =>
    if k1 = k then (k, v) :: rest else (k1, v1) :: FileStore.put rest k v

/-- The map lookup `files[k]`. -/
def FileStore.get : FileStore → String → Option FileAttr
  | [], _ => none
  | (k1, v1) :: rest, k => if k1 = k then some v1 else FileStore.get rest k

/-- The closure passed to `filepath.Walk` by `loadLogs`, over the captured map
`files` and the lines written to the logger.  `f.IsDir()` on a nil `f` is a nil
dereference. -/
def loadLogsFn (dir : String) : WalkFunc (FileStore × List String) :=
  fun path f _err s =>
    match f with
    | none => (s, .panic "runtime error: invalid memory address or nil pointer dereference")
    | some f =>
      if !f.IsDir then
        let p := TrimPrefix path (dir ++ "/")
        ((FileStore.put s.1 p { MTime := f.ModTime, Size := f.Size },
          s.2 ++ ["debug: found logfile " ++ p]), .done none)
      else (s, .done none)

/-- The function `loadLogs` of main.go, with the item found at `cfg.Root`
given: the map, the lines logged, and the returned error or the panic. -/
def loadLogs (cfg : Config) (fs : Node) : (FileStore × List String) × Ret :=
  let dir := TrimSuffix cfg.Root "/"
  Walk cfg.Root (loadLogsFn dir) fs ([], [])

/-! ## Messages and the script of the outside world -/

/-- The generic message, both directions; an empty `Error` is left out of the
JSON text (`omitempty`). -/
structure message where
  Channel : String
  Message : String
  Error : String
  deriving DecidableEq, Repr

/-- The listing message. -/
structure listmessage where
  Message : FileStore
  Error : String
  deriving DecidableEq, Repr

/-- A value handed to `websocket.JSON.Send`. -/
inductive Payload where
  | msg (m : message)
  | list (m : listmessage)
  deriving DecidableEq, Repr

/-- The `tail.SeekInfo` of a follow: offset and whence. -/
structure SeekInfo where
  Offset : Int
  Whence : Int
  deriving DecidableEq, Repr

/-- The constant `os.SEEK_END`. -/
def SEEK_END : Int := 2

/-- The fields of `tail.Config` that the handler sets; `Location` is nil for a
follow from the beginning of the file. -/
structure TailConfig where
  Location : Option SeekInfo
  ReOpen : Bool
  Follow : Bool
  MaxLineSize : Int
  Poll : Bool
  deriving DecidableEq, Repr

/-- A line delivered on the channel `t.Lines`. -/
structure Line where
  Text : String
  deriving DecidableEq, Repr

/-- How a follow goes on once it has handed over its lines.  The handler sets
`Follow` and `ReOpen` and never stops the follow, so the follow ends only when
`hpcloud/tail` kills it: it then closes the channel `t.Lines` and `Wait()`
returns the reason (a nil reason needs a `Stop()`, which main.go never calls).
Otherwise it waits for the file to grow and the channel stays open. -/
inductive Ending where
  | closed (reason : Option error)
  | idle
  deriving DecidableEq, Repr

/-- What a follow session does once started: the lines it hands over on the
unbuffered channel `t.Lines`, one at a time and each only when the handler
takes it, and how it goes on after the last of them. -/
structure Tail where
  Lines : List Line
  Ends : Ending

/-- The outside world during one pass of the request loop after a request was
received: the request, the result of the k-th `Send` of the pass, the item
found at the log root, and the results of `os.Stat` and `tail.TailFile`. -/
structure Turn where
  m : message
  sendErr : Nat → Option error
  fs : Node
  stat : String → Except error Int
  tailFile : String → TailConfig → Except error Tail

/-- The script of a connection: the passes whose `Receive` succeeds, and the
error of the `Receive` after them (`io.EOF` when the peer closed). -/
structure World where
  turns : List Turn
  closing : error

/-- The external calls of the handler, in the order made.  A follow session is
named by the number of the pass that started it. -/
inductive Event where
  | Receive (m : Option message)
  | Send (v : Payload) (err : Option error)
  | Log (line : String)
  | Walk (root : String)
  | Stat (filename : String)
  | TailFile (filename : String) (config : TailConfig) (t : Option Nat)
  | Wait (t : Nat)
  | Cleanup (t : Nat)
  deriving DecidableEq, Repr

/-- How one pass of the request loop ends, with the value of the variable `t`:
next pass, `break`, a panic, or a call that never returns. -/
inductive Ctl where
  | next (t : Option Nat)
  | brk (t : Option Nat)
  | panicked
  | blocked
  deriving DecidableEq, Repr

/-- How the handler ends: it returns, it panics, or it stays blocked in a call
that never returns. -/
inductive Exit where
  | returned
  | panicked
  | blocked
  deriving DecidableEq, Repr

/-! ## tailHandler -/

/-- The loop `for line := range t.Lines` of one subscription to channel `c`
over the lines that the follow has to hand over: `k` sends were made,
`lineIncomlete` is the flag of the code.  A flagged line is skipped and clears
the flag; any other line is logged and sent, and a failed send leaves the loop.
The second component is `none` when the loop has taken every line and is at the
end of the channel, and the lines not taken when the loop was left by `break`. -/
def stream (c : String) (sendErr : Nat → Option error) :
    Nat → Bool → List Line → List Event × Option (List Line)
  | _, _, [] => ([], none)
  | k, true, _ :: rest => stream c sendErr k false rest
  | k, false, line :: rest =>
    let m2 : message := { Channel := c, Message := line.Text, Error := "" }
    match sendErr k with
    | some err =>
      ([.Log ("debug: Sending line: " ++ line.Text), .Send (.msg m2) (some err)], some rest)
    | none =>
      let r := stream c sendErr (k + 1) false rest
      (.Log ("debug: Sending line: " ++ line.Text) :: .Send (.msg m2) none :: r.1, r.2)

/-- The code after `Wait()` has returned `err` for the follow `n`. -/
def waited (n : Nat) (err : Option error) : List Event × Ctl :=
  match err with
  | some err => ([.Wait n, .Log ("warn: tail run:  " ++ err.Error)], .brk (some n))
  | none => ([.Wait n, .Log "info: Stop"], .next (some n))

/-- What comes after the last line taken from the follow `n`; `left` is the
second component of `stream`.
* At the end of the channel the loop waits for the channel to be closed: for
  ever when the follow stays idle; when the follow ends, the loop ends and
  `Wait()` returns the reason.
* After a `break`, `Wait()` is called at once.  It returns only when the
  follow ends, which a follow that still has a line to hand over never does,
  since nobody takes the line; nor does a follow that stays idle. -/
def afterLines (n : Nat) (left : Option (List Line)) (ends : Ending) : List Event × Ctl :=
  match left, ends with
  | none, .idle => ([], .blocked)
  | none, .closed reason => waited n reason
  | some [], .closed reason => waited n reason
  | some [], .idle => ([.Wait n], .blocked)
  | some (_ :: _), _ => ([.Wait n], .blocked)

/-- The part of the loop body from `tail.TailFile` on: start the follow with
the configuration and assign its handle to `t` (nil when `TailFile` fails),
relay its lines, wait for it. -/
def follow (n : Nat) (w : Turn) (filename : String) (config : TailConfig)
    (lineIncomlete : Bool) : List Event × Ctl :=
  match w.tailFile filename config with
  | .error err =>
    ([.TailFile filename config none, .Log ("warn: tail start:  " ++ err.Error)], .brk none)
  | .ok tl =>
    let r := stream w.m.Channel w.sendErr 0 lineIncomlete tl.Lines
    let a := afterLines n r.2 tl.Ends
    (.TailFile filename config (some n) :: (r.1 ++ a.1), a.2)

/-- The part of the loop body for a channel found in the inventory: build the
configuration of the follow, decide where it starts, and follow. -/
def subscribe (cfg : Config) (t : Option Nat) (n : Nat) (w : Turn) : List Event × Ctl :=
  let config : TailConfig :=
    { Location := none, ReOpen := true, Follow := true,
      MaxLineSize := cfg.MaxLineSize, Poll := cfg.Poll }
  let filename := Join cfg.Root w.m.Channel
  if cfg.Back ≠ 0 then
    match w.stat filename with
    | .error err => ([.Stat filename, .Log ("warn: file stat:  " ++ err.Error)], .brk t)
    | .ok size =>
      if size > cfg.Back then
        let r := follow n w filename
          { config with Location := some { Offset := wrapInt64 (-cfg.Back), Whence := SEEK_END } }
          true
        (.Stat filename :: r.1, r.2)
      else
        let r := follow n w filename config false
        (.Stat filename :: r.1, r.2)
  else follow n w filename config false

/-- The body of the request loop of `tailHandler` after a successful
`Receive`: `t` is the follow handle held, `n` the number of the pass. -/
def body (cfg : Config) (t : Option Nat) (n : Nat) (w : Turn) : List Event × Ctl :=
  if w.m.Channel = "?" then
    if cfg.Host ≠ "" then
      let m2 : message := { Channel := "?", Message := cfg.Host, Error := "" }
      match w.sendErr 0 with
      | some err =>
        ([.Log "debug: Requested hostname", .Send (.msg m2) (some err),
          .Log ("info: Can't send host: " ++ err.Error)], .brk t)
      | none => ([.Log "debug: Requested hostname", .Send (.msg m2) none], .next t)
    else ([.Log "debug: Requested hostname"], .next t)
  else if w.m.Channel = "#" then
    match w.sendErr 0 with
    | some err =>
      ([.Log "debug: Requested ping", .Send (.msg w.m) (some err),
        .Log ("info: Can't send pong: " ++ err.Error)], .brk t)
    | none => ([.Log "debug: Requested ping", .Send (.msg w.m) none], .next t)
  else
    match loadLogs cfg w.fs with
    | (s, .panic _) => (.Walk cfg.Root :: s.2.map .Log, .panicked)
    | (s, .done (some err)) =>
      (.Walk cfg.Root :: (s.2.map .Log ++ [.Log ("info: loadlogs: " ++ err.Error)]), .brk t)
    | (s, .done none) =>
      let logs := s.1
      let scan := .Walk cfg.Root :: s.2.map .Log
      if w.m.Channel = "" then
        let m2 : listmessage := { Message := logs, Error := "" }
        match w.sendErr 0 with
        | some err =>
          (scan ++ [.Log "debug: Requested channel list", .Send (.list m2) (some err),
            .Log ("info: Can't send: " ++ err.Error)], .brk t)
        | none => (scan ++ [.Log "debug: Requested channel list", .Send (.list m2) none], .next t)
      else
        let req := scan ++ [.Log ("debug: Requested channel " ++ w.m.Channel)]
        match FileStore.get logs w.m.Channel with
        | none =>
          let m2 : message := { Channel := w.m.Channel, Message := "", Error := "Unknown logfile" }
          match w.sendErr 0 with
          | some err =>
            (req ++ [.Send (.msg m2) (some err), .Log ("info: Can't send error: " ++ err.Error)],
              .brk t)
          | none => (req ++ [.Send (.msg m2) none], .brk t)
        | some _ =>
          let r := subscribe cfg t n w
          (req ++ r.1, r.2)

/-- The code after the request loop: release the follow handle held. -/
def cleanup : Option Nat → List Event
  | none => []
  | some h => [.Log "info: Cleanup", .Cleanup h]

/-- The request loop of `tailHandler` from pass `n` with handle `t`, and the
code after it. -/
def loop (cfg : Config) (closing : error) : Option Nat → Nat → List Turn → List Event × Exit
  | t, _, [] =>
    if closing ≠ .EOF then
      (.Receive none :: .Log ("info: read: " ++ closing.Error) :: cleanup t, .returned)
    else (.Receive none :: cleanup t, .returned)
  | t, n, w :: rest =>
    match body cfg t n w with
    | (ev, .next t1) =>
      let r := loop cfg closing t1 (n + 1) rest
      (.Receive (some w.m) :: (ev ++ r.1), r.2)
    | (ev, .brk t1) => (.Receive (some w.m) :: (ev ++ cleanup t1), .returned)
    | (ev, .panicked) => (.Receive (some w.m) :: ev, .panicked)
    | (ev, .blocked) => (.Receive (some w.m) :: ev, .blocked)

/-- The function `tailHandler` of main.go on one connection. -/
def tailHandler (cfg : Config) (world : World) : List Event × Exit :=
  loop cfg world.closing none 0 world.turns

/-! ## Sample configurations and scripts -/

/-- The configuration when no flag is given: the `default` tags of `Flags`. -/
def defaultConfig : Config :=
  { Addr := ":8080", Host := "", LogLevel := "info", Root := "log/", Back := 5000,
    MaxLineSize := 180, Poll := false, Version := false }

/-- A log root with the regular files `app.log` (50000 bytes) and `error.log`
(10 bytes). -/
def sampleRoot : Node :=
  .dir 1000 4096 none
    (.cons "app.log" (.file .regular 1700 50000)
      (.cons "error.log" (.file .regular 1600 10) .nil))

/-- The inventory of `sampleRoot`. -/
def sampleFiles : FileStore :=
  [("app.log", { MTime := 1700, Size := 50000 }), ("error.log", { MTime := 1600, Size := 10 })]

/-- The lines logged by the scan of `sampleRoot`. -/
def sampleOut : List String :=
  ["debug: found logfile app.log", "debug: found logfile error.log"]

/-- The sizes that `os.Stat` reports for the files of `sampleRoot`. -/
def sampleStat (filename : String) : Except error Int :=
  if filename = "log/app.log" then .ok 50000
  else if filename = "log/error.log" then .ok 10
  else .error (.text ("stat " ++ filename ++ ": no such file or directory"))

/-- A pass with the request `m` over `sampleRoot`, where every follow hands
over the lines `ls` and then goes on as `ends`, and the sends have the results
`sendErr`. -/
def sampleTurn (m : message) (sendErr : Nat → Option error) (ls : List Line)
    (ends : Ending) : Turn :=
  { m := m, sendErr := sendErr, fs := sampleRoot,
    stat := sampleStat,
    tailFile := fun _ _ => .ok { Lines := ls, Ends := ends } }

/-- The error of a send to a peer that is gone. -/
def brokenPipe : error := .text "write: broken pipe"

/-- The reason of a follow that ended on a failed read. -/
def readFailed : error :=
  .text "Error reading log/app.log: read log/app.log: input/output error"

/-- A connection that subscribes to `app.log` and sends a ping, and whose peer
is then gone: every send fails with a broken pipe.  The follow has three lines
to hand over and then waits for the file to grow. -/
def brokenPipeWorld : World :=
  { turns :=
      [sampleTurn { Channel := "app.log", Message := "", Error := "" }
          (fun _ => some brokenPipe) [⟨"rtial line"⟩, ⟨"line 1"⟩, ⟨"line 2"⟩] .idle,
        sampleTurn { Channel := "#", Message := "x", Error := "" }
          (fun _ => some brokenPipe) [] .idle],
    closing := .EOF }

/-- A connection that subscribes to `error.log`, receives its first line, and
whose peer is gone when the second line is sent; the follow has a third line to
hand over. -/
def lostPeerWorld : World :=
  { turns :=
      [sampleTurn { Channel := "error.log", Message := "", Error := "" }
          (fun k => if k = 0 then none else some brokenPipe)
          [⟨"line 1"⟩, ⟨"line 2"⟩, ⟨"line 3"⟩] .idle],
    closing := .EOF }

/-- The follow sessions that `tail.TailFile` started in a trace. -/
def started : List Event → List Nat
  | [] => []
  | .TailFile _ _ (some h) :: rest => h :: started rest
  | _ :: rest => started rest

/-- The follow sessions on which `Cleanup` was called in a trace. -/
def released : List Event → List Nat
  | [] => []
  | .Cleanup h :: rest => h :: released rest
  | _ :: rest => released rest

/-! ## Reading a trace -/

/-- The values handed to `Send` in a trace, each with the result of the send. -/
def sent : List Event → List (Payload × Option error)
  | [] => []
  | .Send v err :: rest => (v, err) :: sent rest
  | _ :: rest => sent rest

/-- The number of `Receive` calls in a trace. -/
def receives : List Event → Nat
  | [] => 0
  | .Receive _ :: rest => receives rest + 1
  | _ :: rest => receives rest

/-- Whether the event is an inventory scan. -/
def Event.isWalk : Event → Bool
  | .Walk _ => true
  | _ => false

/-- Whether the event is an `os.Stat` or a `tail.TailFile` call. -/
def Event.opensFile : Event → Bool
  | .Stat _ => true
  | .TailFile _ _ _ => true
  | _ => false

/-- Whether the event is an `os.Stat` call. -/
def Event.isStat : Event → Bool
  | .Stat _ => true
  | _ => false

/-- The calls of `tail.TailFile` in a trace: file name and configuration. -/
def follows : List Event → List (String × TailConfig)
  | [] => []
  | .TailFile filename config _ :: rest => (filename, config) :: follows rest
  | _ :: rest => follows rest

/-- The configuration of a follow from the beginning of the file. -/
def baseConfig (cfg : Config) : TailConfig :=
  { Location := none, ReOpen := true, Follow := true,
    MaxLineSize := cfg.MaxLineSize, Poll := cfg.Poll }

/-- The messages that carry the lines `ls` on channel `c`. -/
def lineMessages (c : String) (ls : List Line) : List Payload :=
  ls.map fun l => .msg { Channel := c, Message := l.Text, Error := "" }

/-! ## The items of a tree and the inventory expected of them -/

mutual
/-- The items that `filepath.Walk` passes to the closure with a file info when
it walks the item `node` under the path `path`, in the order of the walk: the
item itself and, for a directory whose names could be read, the items of its
entries. -/
def Node.items (path : String) : Node → List (String × FileInfo)
  | .absent _ => []
  | .file kind mtime size =>
    [(path, { IsDir := false, IsRegular := decide (kind = .regular),
              ModTime := mtime, Size := size })]
  | .dir mtime size readErr entries =>
    (path, { IsDir := true, IsRegular := false, ModTime := mtime, Size := size }) ::
      (if readErr.isSome then [] else Entries.items path entries)
/-- The items of the entries of the directory at `path`. -/
def Entries.items (path : String) : Entries → List (String × FileInfo)
  | .nil => []
  | .cons name node rest => Node.items (Join path name) node ++ Entries.items path rest
end

/-- A name as a directory holds it: not empty, without a slash, and neither
`.` nor `..`. -/
def validName (name : List Char) : Bool :=
  decide (name ≠ []) && decide ('/' ∉ name) && decide (name ≠ ['.']) &&
    decide (name ≠ ['.', '.'])

/-- The names of the entries of a directory. -/
def Entries.names : Entries → List String
  | .nil => []
  | .cons name _ rest => name :: Entries.names rest

mutual
/-- A tree as a walk can meet it when no `Lstat` fails: below every directory
whose names could be read, the names are valid and differ from one another,
and every entry is such a tree. -/
def Node.wellFormed : Node → Bool
  | .absent _ => false
  | .file _ _ _ => true
  | .dir _ _ readErr entries => readErr.isSome || Entries.wellFormed entries
/-- The entries of a directory are well formed. -/
def Entries.wellFormed : Entries → Bool
  | .nil => true
  | .cons name node rest =>
    validName name.data && decide (name ∉ Entries.names rest) &&
      Node.wellFormed node && Entries.wellFormed rest
end

/-- The key under which `loadLogs` stores the item walked under `path`. -/
def logKey (cfg : Config) (path : String) : String :=
  TrimPrefix path (TrimSuffix cfg.Root "/" ++ "/")

/-- The inventory expected of the items of a walk: one entry for every item
that is not a directory, in the order of the walk, under its key and with its
own modification time and size. -/
def inventoryOf (cfg : Config) (items : List (String × FileInfo)) : FileStore :=
  (items.filter fun it => !it.2.IsDir).map fun it =>
    (logKey cfg it.1, { MTime := it.2.ModTime, Size := it.2.Size })

/-- The effect of the closure of `loadLogs` on the captured map and the log when
it is called on an item with its file info. -/
def recordItem (dir : String) (s : FileStore × List String) (it : String × FileInfo) :
    FileStore × List String :=
  if !it.2.IsDir then
    (FileStore.put s.1 (TrimPrefix it.1 (dir ++ "/")) { MTime := it.2.ModTime, Size := it.2.Size },
      s.2 ++ ["debug: found logfile " ++ TrimPrefix it.1 (dir ++ "/")])
  else s

/-- The number of regular files among the items of a walk. -/
def regularFiles (items : List (String × FileInfo)) : Nat :=
  (items.filter fun it => it.2.IsRegular).length

/-- A log root with the regular file `app.log` and a symbolic link `current`. -/
def linkRoot : Node :=
  .dir 1000 4096 none
    (.cons "app.log" (.file .regular 1700 50000)
      (.cons "current" (.file .symlink 1800 7) .nil))

/-- A log root whose names cannot be read. -/
def unreadableRoot : Node :=
  .dir 1000 4096 (some (.text "open log/: permission denied")) .nil

/-- A log root that does not exist. -/
def missingRoot : Node :=
  .absent (.text "lstat log/: no such file or directory")

/-- The text of the elements `segs` joined by slashes. -/
def joinSlash : List (List Char) → List Char
  | [] => []
  | [c] => c
  | c :: d :: rest => c ++ '/' :: joinSlash (d :: rest)

/-- A stack of path elements as `Clean` leaves it, the last element first:
valid names, above `..` elements that only a path that is not rooted has. -/
def okStack (rooted : Bool) : List (List Char) → Prop
  | [] => True
  | c :: rest =>
    okStack rooted rest ∧
      (validName c = true ∨
        (c = ['.', '.'] ∧ rooted = false ∧ (rest = [] ∨ rest.head? = some ['.', '.'])))

mutual
/-- The places below an item of the items that are not directories, each as
the list of the names that lead to it, the last name first. -/
def Node.rels : Node → List (List (List Char))
  | .absent _ => []
  | .file _ _ _ => [[]]
  | .dir _ _ readErr entries => if readErr.isSome then [] else Entries.rels entries
/-- The places below the entries of a directory. -/
def Entries.rels : Entries → List (List (List Char))
  | .nil => []
  | .cons name node rest =>
    (Node.rels node).map (fun rel => rel ++ [name.data]) ++ Entries.rels rest
end

/-- The elements of the cleaned path with the stack `st`, in the order of the
path; a rooted path begins with an empty element. -/
def pathSegs (rooted : Bool) (st : List (List Char)) : List (List Char) :=
  (if rooted then [[]] else []) ++ st.reverse

/-- The path `a` is that of a directory whose entries the walk reports under
the cleaned paths with the stack `st`. -/
def Parent (a : String) (rooted : Bool) (st : List (List Char)) : Prop :=
  okStack rooted st ∧
    ∀ name : String, validName name.data = true →
      Join a name = ⟨renderPath rooted (name.data :: st)⟩

/-! # Theorems -/

theorem sent_append (a b : List Event) : sent (a ++ b) = sent a ++ sent b := by
  induction a with
  | nil => rfl
  | cons e a ih => cases e <;> simp [sent, ih]

theorem sent_map_Log (ls : List String) : sent (ls.map Event.Log) = [] := by
  induction ls with
  | nil => rfl
  | cons l ls ih => simpa [sent] using ih

theorem receives_append (a b : List Event) : receives (a ++ b) = receives a + receives b := by
  induction a with
  | nil => simp [receives]
  | cons e a ih =>
    cases e <;> simp [receives, ih]
    omega

theorem receives_map_Log (ls : List String) : receives (ls.map Event.Log) = 0 := by
  induction ls with
  | nil => rfl
  | cons l ls ih => simpa [receives] using ih

theorem receives_cleanup (t : Option Nat) : receives (cleanup t) = 0 := by
  cases t <;> rfl

theorem sent_cleanup (t : Option Nat) : sent (cleanup t) = [] := by
  cases t <;> rfl

/-- C9 (ping round trip): a request on channel `#` is answered by exactly one
send, of the inbound message itself, without any inventory scan; when the send
succeeds the loop goes on with the next request and the same follow handle,
and when it fails the loop ends. -/
theorem ping_round_trip (cfg : Config) (closing : error) (t : Option Nat) (n : Nat)
    (w : Turn) (rest : List Turn) (h : w.m.Channel = "#") :
    sent (body cfg t n w).1 = [(.msg w.m, w.sendErr 0)] ∧
    (∀ e ∈ (body cfg t n w).1, e.isWalk = false) ∧
    (w.sendErr 0 = none →
      (body cfg t n w).2 = .next t ∧
      loop cfg closing t n (w :: rest) =
        (.Receive (some w.m) :: .Log "debug: Requested ping" :: .Send (.msg w.m) none ::
          (loop cfg closing t (n + 1) rest).1, (loop cfg closing t (n + 1) rest).2)) ∧
    (∀ err, w.sendErr 0 = some err → (body cfg t n w).2 = .brk t) := by
  have hq : w.m.Channel ≠ "?" := by rw [h]; decide
  refine ⟨?_, ?_, ?_, ?_⟩
  · unfold body
    rw [if_neg hq, if_pos h]
    cases hs : w.sendErr 0 <;> simp [sent]
  · unfold body
    rw [if_neg hq, if_pos h]
    cases hs : w.sendErr 0 <;> simp [Event.isWalk]
  · intro hs
    have hb : body cfg t n w =
        ([.Log "debug: Requested ping", .Send (.msg w.m) none], .next t) := by
      unfold body
      rw [if_neg hq, if_pos h, hs]
    refine ⟨by rw [hb], ?_⟩
    simp [loop, hb]
  · intro err hs
    unfold body
    rw [if_neg hq, if_pos h, hs]

/-- C10 (hostname query): a request on channel `?` is answered, when `cfg.Host`
is not empty, by exactly one send of the message with channel `?`, the host as
text and no error field, and by no send at all when `cfg.Host` is empty; no
inventory scan is made, and unless the send failed the loop goes on with the
next request and the same follow handle. -/
theorem hostname_query (cfg : Config) (closing : error) (t : Option Nat) (n : Nat)
    (w : Turn) (rest : List Turn) (h : w.m.Channel = "?") :
    (cfg.Host ≠ "" →
      sent (body cfg t n w).1 =
        [(.msg { Channel := "?", Message := cfg.Host, Error := "" }, w.sendErr 0)]) ∧
    (cfg.Host = "" → sent (body cfg t n w).1 = []) ∧
    (∀ e ∈ (body cfg t n w).1, e.isWalk = false) ∧
    ((cfg.Host = "" ∨ w.sendErr 0 = none) →
      (body cfg t n w).2 = .next t ∧
      loop cfg closing t n (w :: rest) =
        (.Receive (some w.m) :: ((body cfg t n w).1 ++ (loop cfg closing t (n + 1) rest).1),
          (loop cfg closing t (n + 1) rest).2)) ∧
    (∀ err, cfg.Host ≠ "" → w.sendErr 0 = some err → (body cfg t n w).2 = .brk t) := by
  refine ⟨?_, ?_, ?_, ?_, ?_⟩
  · intro hh
    unfold body
    rw [if_pos h, if_pos hh]
    cases hs : w.sendErr 0 <;> simp [sent]
  · intro hh
    unfold body
    rw [if_pos h, if_neg (by simpa using hh)]
    simp [sent]
  · unfold body
    rw [if_pos h]
    by_cases hh : cfg.Host ≠ ""
    · rw [if_pos hh]
      cases hs : w.sendErr 0 <;> simp [Event.isWalk]
    · rw [if_neg hh]
      simp [Event.isWalk]
  · intro hc
    have hb : (body cfg t n w).2 = .next t := by
      unfold body
      rw [if_pos h]
      by_cases hh : cfg.Host ≠ ""
      · rw [if_pos hh]
        rcases hc with hc | hc
        · exact absurd hc hh
        · rw [hc]
      · rw [if_neg hh]
    refine ⟨hb, ?_⟩
    cases hbody : body cfg t n w with
    | mk ev ctl =>
      rw [hbody] at hb
      simp only at hb
      subst hb
      simp [loop, hbody]
  · intro err hh hs
    unfold body
    rw [if_pos h, if_pos hh, hs]

/-- The events of a successful inventory scan: the walk and the lines logged. -/
theorem body_scan (cfg : Config) (t : Option Nat) (n : Nat) (w : Turn)
    (files : FileStore) (out : List String)
    (hq : w.m.Channel ≠ "?") (hp : w.m.Channel ≠ "#") (he : w.m.Channel ≠ "")
    (hload : loadLogs cfg w.fs = ((files, out), .done none)) :
    body cfg t n w =
      match FileStore.get files w.m.Channel with
      | none =>
        ((.Walk cfg.Root :: out.map .Log) ++
          (.Log ("debug: Requested channel " ++ w.m.Channel) ::
            .Send (.msg { Channel := w.m.Channel, Message := "", Error := "Unknown logfile" })
              (w.sendErr 0) ::
            match w.sendErr 0 with
            | some err => [.Log ("info: Can't send error: " ++ err.Error)]
            | none => []), .brk t)
      | some _ =>
        ((.Walk cfg.Root :: out.map .Log) ++
          (.Log ("debug: Requested channel " ++ w.m.Channel) :: (subscribe cfg t n w).1),
          (subscribe cfg t n w).2) := by
  unfold body
  rw [if_neg hq, if_neg hp, hload]
  simp only [if_neg he]
  cases hg : FileStore.get files w.m.Channel with
  | none => cases hs : w.sendErr 0 <;> simp
  | some a => simp

/-- C8 (unknown channel): a request for a channel that is none of `?`, `#`, the
empty string, and is not a key of the inventory just scanned, is answered by
exactly one send, of the message with that channel, an empty text and the error
`Unknown logfile`; then the loop ends whatever the result of the send: the
trace of the connection is that of this pass followed by the cleanup, with one
`Receive`, no `Stat` and no `TailFile`, and the later requests are not read. -/
theorem unknown_channel (cfg : Config) (closing : error) (t : Option Nat) (n : Nat)
    (w : Turn) (rest : List Turn) (files : FileStore) (out : List String)
    (hq : w.m.Channel ≠ "?") (hp : w.m.Channel ≠ "#") (he : w.m.Channel ≠ "")
    (hload : loadLogs cfg w.fs = ((files, out), .done none))
    (hkey : FileStore.get files w.m.Channel = none) :
    loop cfg closing t n (w :: rest) =
      (.Receive (some w.m) :: .Walk cfg.Root :: (out.map .Log ++
        (.Log ("debug: Requested channel " ++ w.m.Channel) ::
          .Send (.msg { Channel := w.m.Channel, Message := "", Error := "Unknown logfile" })
            (w.sendErr 0) ::
          ((match w.sendErr 0 with
            | some err => [.Log ("info: Can't send error: " ++ err.Error)]
            | none => []) ++ cleanup t))), .returned) ∧
    sent (loop cfg closing t n (w :: rest)).1 =
      [(.msg { Channel := w.m.Channel, Message := "", Error := "Unknown logfile" },
        w.sendErr 0)] ∧
    receives (loop cfg closing t n (w :: rest)).1 = 1 ∧
    (∀ e ∈ (loop cfg closing t n (w :: rest)).1, e.opensFile = false) := by
  have hb := body_scan cfg t n w files out hq hp he hload
  rw [hkey] at hb
  simp only at hb
  have hl : loop cfg closing t n (w :: rest) =
      (.Receive (some w.m) :: .Walk cfg.Root :: (out.map .Log ++
        (.Log ("debug: Requested channel " ++ w.m.Channel) ::
          .Send (.msg { Channel := w.m.Channel, Message := "", Error := "Unknown logfile" })
            (w.sendErr 0) ::
          ((match w.sendErr 0 with
            | some err => [.Log ("info: Can't send error: " ++ err.Error)]
            | none => []) ++ cleanup t))), .returned) := by
    simp [loop, hb]
  refine ⟨hl, ?_, ?_, ?_⟩
  · rw [hl]
    cases hs : w.sendErr 0 <;>
      simp [sent, sent_append, sent_map_Log, sent_cleanup]
  · rw [hl]
    cases hs : w.sendErr 0 <;>
      simp [receives, receives_append, receives_map_Log, receives_cleanup]
  · rw [hl]
    cases hs : w.sendErr 0 <;> cases t <;>
      simp [cleanup, Event.opensFile, or_imp, forall_and]

theorem stream_flag (c : String) (se : Nat → Option error) (k : Nat) (flag : Bool)
    (ls : List Line) :
    stream c se k flag ls = stream c se k false (if flag then ls.drop 1 else ls) := by
  cases flag with
  | false => simp
  | true =>
    cases ls with
    | nil => simp [stream]
    | cons l ls => simp [stream]

theorem stream_no_stat (c : String) (se : Nat → Option error) (k : Nat) (flag : Bool)
    (ls : List Line) : ∀ e ∈ (stream c se k flag ls).1, e.isStat = false := by
  induction ls generalizing k flag with
  | nil => simp [stream]
  | cons l ls ih =>
    cases flag with
    | true => simpa [stream] using ih k false
    | false =>
      cases hs : se k with
      | some err => simp [stream, hs, Event.isStat]
      | none =>
        simp only [stream, hs, List.mem_cons, forall_eq_or_imp]
        exact ⟨rfl, rfl, ih (k + 1) false⟩

/-- The events of a follow that `tail.TailFile` started: the call, the line
loop, and what comes after the lines. -/
theorem follow_ok (n : Nat) (w : Turn) (filename : String) (config : TailConfig)
    (flag : Bool) (tl : Tail) (h : w.tailFile filename config = .ok tl) :
    follow n w filename config flag =
      (.TailFile filename config (some n) ::
        ((stream w.m.Channel w.sendErr 0 flag tl.Lines).1 ++
          (afterLines n (stream w.m.Channel w.sendErr 0 flag tl.Lines).2 tl.Ends).1),
        (afterLines n (stream w.m.Channel w.sendErr 0 flag tl.Lines).2 tl.Ends).2) := by
  unfold follow
  rw [h]

/-- After the lines come at most the call of `Wait()` and one line of the log. -/
theorem afterLines_events (n : Nat) (left : Option (List Line)) (ends : Ending) :
    (afterLines n left ends).1 = [] ∨ (afterLines n left ends).1 = [.Wait n] ∨
      ∃ l, (afterLines n left ends).1 = [.Wait n, .Log l] := by
  have hw : ∀ reason, ∃ l, (waited n reason).1 = [.Wait n, .Log l] := by
    intro reason
    cases reason with
    | none => exact ⟨_, rfl⟩
    | some err => exact ⟨_, rfl⟩
  cases left with
  | none =>
    cases ends with
    | idle => exact Or.inl rfl
    | closed reason => exact Or.inr (Or.inr (hw reason))
  | some rest =>
    cases rest with
    | nil =>
      cases ends with
      | idle => exact Or.inr (Or.inl rfl)
      | closed reason => exact Or.inr (Or.inr (hw reason))
    | cons l ls => exact Or.inr (Or.inl rfl)

theorem follow_no_stat (n : Nat) (w : Turn) (filename : String) (config : TailConfig)
    (flag : Bool) : ∀ e ∈ (follow n w filename config flag).1, e.isStat = false := by
  cases h : w.tailFile filename config with
  | error err =>
    unfold follow
    rw [h]
    simp [Event.isStat]
  | ok tl =>
    rw [follow_ok n w filename config flag tl h]
    have hs := stream_no_stat w.m.Channel w.sendErr 0 flag tl.Lines
    have ha : ∀ e ∈ (afterLines n (stream w.m.Channel w.sendErr 0 flag tl.Lines).2 tl.Ends).1,
        e.isStat = false := by
      rcases afterLines_events n (stream w.m.Channel w.sendErr 0 flag tl.Lines).2 tl.Ends with
        h1 | h1 | ⟨l, h1⟩ <;> rw [h1] <;> simp [Event.isStat]
    simp only [List.mem_cons, List.mem_append, or_imp, forall_and]
    exact ⟨fun e he => by rw [he]; rfl, hs, ha⟩

/-- The sends of the streaming loop when none of them fails. -/
theorem sent_stream_ok (c : String) (se : Nat → Option error) (k : Nat) (ls : List Line)
    (hok : ∀ i, i < ls.length → se (k + i) = none) :
    sent (stream c se k false ls).1 = (lineMessages c ls).map fun v => (v, none) := by
  induction ls generalizing k with
  | nil => simp [stream, sent, lineMessages]
  | cons l ls ih =>
    have h0 : se k = none := by simpa using hok 0 (by simp)
    have ih1 := ih (k + 1) (fun i hi => by
      have := hok (i + 1) (by simpa using hi)
      rwa [show k + (i + 1) = k + 1 + i by omega] at this)
    simp only [stream, h0, sent, ih1, lineMessages, List.map_cons]

/-- The sends of the streaming loop when the send number `j` is the first to
fail: the messages of the first `j + 1` lines, the last of them failed. -/
theorem sent_stream_fail (c : String) (se : Nat → Option error) (k : Nat) (ls : List Line)
    (j : Nat) (err : error) (hj : j < ls.length)
    (hok : ∀ i, i < j → se (k + i) = none) (hfail : se (k + j) = some err) :
    (sent (stream c se k false ls).1).map Prod.fst = (lineMessages c ls).take (j + 1) ∧
    (sent (stream c se k false ls).1).map Prod.snd = List.replicate j none ++ [some err] := by
  induction ls generalizing k j with
  | nil => simp at hj
  | cons l ls ih =>
    cases j with
    | zero =>
      have h0 : se k = some err := by simpa using hfail
      simp [stream, h0, sent, lineMessages]
    | succ j =>
      have h0 : se k = none := by simpa using hok 0 (by omega)
      have ih1 := ih (k + 1) j (by simpa using hj)
        (fun i hi => by
          have := hok (i + 1) (by omega)
          rwa [show k + (i + 1) = k + 1 + i by omega] at this)
        (by rwa [show k + (j + 1) = k + 1 + j by omega] at hfail)
      simp only [stream, h0, sent, List.map_cons, ih1.1, ih1.2, lineMessages,
        List.take_succ_cons, List.replicate_succ, List.cons_append, and_self]

/-- The sends of a pass that subscribes to a channel of the inventory are those
of its streaming loop. -/
theorem sent_body_subscribe (cfg : Config) (t : Option Nat) (n : Nat) (w : Turn)
    (files : FileStore) (out : List String) (a : FileAttr) (S : Int) (tl : Tail)
    (hq : w.m.Channel ≠ "?") (hp : w.m.Channel ≠ "#") (he : w.m.Channel ≠ "")
    (hload : loadLogs cfg w.fs = ((files, out), .done none))
    (hkey : FileStore.get files w.m.Channel = some a)
    (hstat : cfg.Back ≠ 0 → w.stat (Join cfg.Root w.m.Channel) = .ok S)
    (htail : ∀ config, w.tailFile (Join cfg.Root w.m.Channel) config = .ok tl) :
    sent (body cfg t n w).1 =
      sent (stream w.m.Channel w.sendErr 0 false
        (if cfg.Back ≠ 0 ∧ cfg.Back < S then tl.Lines.drop 1 else tl.Lines)).1 := by
  have hb := body_scan cfg t n w files out hq hp he hload
  rw [hkey] at hb
  simp only at hb
  have hf : ∀ config flag, sent (follow n w (Join cfg.Root w.m.Channel) config flag).1 =
      sent (stream w.m.Channel w.sendErr 0 false
        (if flag then tl.Lines.drop 1 else tl.Lines)).1 := by
    intro config flag
    rw [follow_ok n w _ config flag tl (htail config), stream_flag]
    have ha : sent (afterLines n (stream w.m.Channel w.sendErr 0 false
        (if flag then tl.Lines.drop 1 else tl.Lines)).2 tl.Ends).1 = [] := by
      rcases afterLines_events n (stream w.m.Channel w.sendErr 0 false
        (if flag then tl.Lines.drop 1 else tl.Lines)).2 tl.Ends with
        h1 | h1 | ⟨l, h1⟩ <;> rw [h1] <;> rfl
    simp only [sent, sent_append, ha, List.append_nil]
  rw [hb]
  have hpre : ∀ evs : List Event,
      sent ((.Walk cfg.Root :: out.map .Log) ++
        (.Log ("debug: Requested channel " ++ w.m.Channel) :: evs)) = sent evs := by
    intro evs
    rw [sent_append]
    simp [sent, sent_map_Log]
  rw [hpre]
  unfold subscribe
  by_cases hB : cfg.Back ≠ 0
  · rw [if_pos hB, hstat hB]
    by_cases hS : S > cfg.Back
    · have : cfg.Back ≠ 0 ∧ cfg.Back < S := ⟨hB, hS⟩
      simp only [if_pos hS, sent, hf, if_pos this, if_true]
    · have : ¬ (cfg.Back ≠ 0 ∧ cfg.Back < S) := fun h => hS h.2
      simp only [if_neg hS, sent, hf, if_neg this]
      simp
  · rw [if_neg hB, hf]
    have : ¬ (cfg.Back ≠ 0 ∧ cfg.Back < S) := fun h => hB h.1
    simp [this]

/-- C7 (streaming loop): in a pass that subscribes to a channel `c` of the
inventory and whose follow delivers the lines `L1..Ln`, the messages handed to
`Send` are those of the lines in their order, from `L1` when the follow starts
at the beginning of the file and from `L2` after a seek (`cfg.Back` not zero
and smaller than the size of the file).  When every send succeeds all of them
are sent; when send number `j` is the first to fail, the first `j + 1` of them
were handed to `Send`, the last one failed, and nothing is sent for the later
lines. -/
theorem streaming_order (cfg : Config) (t : Option Nat) (n : Nat) (w : Turn)
    (files : FileStore) (out : List String) (a : FileAttr) (S : Int) (tl : Tail)
    (hq : w.m.Channel ≠ "?") (hp : w.m.Channel ≠ "#") (he : w.m.Channel ≠ "")
    (hload : loadLogs cfg w.fs = ((files, out), .done none))
    (hkey : FileStore.get files w.m.Channel = some a)
    (hstat : cfg.Back ≠ 0 → w.stat (Join cfg.Root w.m.Channel) = .ok S)
    (htail : ∀ config, w.tailFile (Join cfg.Root w.m.Channel) config = .ok tl) :
    ((∀ i, i < (if cfg.Back ≠ 0 ∧ cfg.Back < S then tl.Lines.drop 1 else tl.Lines).length →
        w.sendErr i = none) →
      sent (body cfg t n w).1 =
        (lineMessages w.m.Channel
          (if cfg.Back ≠ 0 ∧ cfg.Back < S then tl.Lines.drop 1 else tl.Lines)).map
          fun v => (v, none)) ∧
    (∀ j err,
      j < (if cfg.Back ≠ 0 ∧ cfg.Back < S then tl.Lines.drop 1 else tl.Lines).length →
      (∀ i, i < j → w.sendErr i = none) → w.sendErr j = some err →
      (sent (body cfg t n w).1).map Prod.fst =
        (lineMessages w.m.Channel
          (if cfg.Back ≠ 0 ∧ cfg.Back < S then tl.Lines.drop 1 else tl.Lines)).take (j + 1) ∧
      (sent (body cfg t n w).1).map Prod.snd = List.replicate j none ++ [some err]) := by
  rw [sent_body_subscribe cfg t n w files out a S tl hq hp he hload hkey hstat htail]
  refine ⟨fun hok => ?_, fun j err hj hok hfail => ?_⟩
  · exact sent_stream_ok _ _ 0 _ (fun i hi => by simpa using hok i hi)
  · exact sent_stream_fail _ _ 0 _ j err hj (fun i hi => by simpa using hok i hi)
      (by simpa using hfail)

theorem follows_append (a b : List Event) : follows (a ++ b) = follows a ++ follows b := by
  induction a with
  | nil => rfl
  | cons e a ih => cases e <;> simp [follows, ih]

theorem follows_map_Log (ls : List String) : follows (ls.map Event.Log) = [] := by
  induction ls with
  | nil => rfl
  | cons l ls ih => simpa [follows] using ih

theorem follows_stream (c : String) (se : Nat → Option error) (k : Nat) (flag : Bool)
    (ls : List Line) : follows (stream c se k flag ls).1 = [] := by
  induction ls generalizing k flag with
  | nil => simp [stream, follows]
  | cons l ls ih =>
    cases flag with
    | true => simpa [stream] using ih k false
    | false =>
      cases hs : se k with
      | some err => simp [stream, hs, follows]
      | none => simpa [stream, hs, follows] using ih (k + 1) false

/-- A follow calls `tail.TailFile` once, with the configuration given. -/
theorem follows_follow (n : Nat) (w : Turn) (filename : String) (config : TailConfig)
    (flag : Bool) : follows (follow n w filename config flag).1 = [(filename, config)] := by
  cases h : w.tailFile filename config with
  | error err =>
    unfold follow
    rw [h]
    simp [follows]
  | ok tl =>
    rw [follow_ok n w filename config flag tl h]
    have ha : follows (afterLines n (stream w.m.Channel w.sendErr 0 flag tl.Lines).2
        tl.Ends).1 = [] := by
      rcases afterLines_events n (stream w.m.Channel w.sendErr 0 flag tl.Lines).2 tl.Ends with
        h1 | h1 | ⟨l, h1⟩ <;> rw [h1] <;> rfl
    simp [follows, follows_append, follows_stream, ha]

/-- The calls of `tail.TailFile` of a pass are those after its inventory scan. -/
theorem follows_scan (root c : String) (out : List String) (evs : List Event) :
    follows ((.Walk root :: out.map .Log) ++ (.Log c :: evs)) = follows evs := by
  rw [follows_append]
  simp [follows, follows_map_Log]

theorem wrapInt64_neg (T : Int) (h0 : 0 ≤ T) (h1 : T < 2 ^ 63) : wrapInt64 (-T) = -T := by
  unfold wrapInt64
  have h2 : (2 : Int) ^ 64 = 2 ^ 63 + 2 ^ 63 := by norm_num
  have h3 : (0 : Int) < 2 ^ 63 := by norm_num
  rw [Int.emod_eq_of_lt (by omega) (by omega)]
  omega

/-- C6 (seek decision): in a pass that subscribes to a channel of the
inventory, with back-read threshold `T = cfg.Back` (an `int64` value that is
not negative) and any file size `S`:
* `T = 0`: no `Stat` is made and the follow starts with a nil `Location` and
  the flag `lineIncomlete` false;
* `T > 0` and `S > T`: the follow starts with `Location` at offset `-T` from
  the end of the file, that is at the absolute offset `S - T` in `[0, S)`, and
  the flag is true;
* `T > 0` and `S ≤ T`: the follow starts with a nil `Location` and the flag
  false.
In each case `tail.TailFile` is called once, with that configuration. -/
theorem seek_decision (cfg : Config) (t : Option Nat) (n : Nat) (w : Turn)
    (files : FileStore) (out : List String) (a : FileAttr) (S : Int)
    (hq : w.m.Channel ≠ "?") (hp : w.m.Channel ≠ "#") (he : w.m.Channel ≠ "")
    (hload : loadLogs cfg w.fs = ((files, out), .done none))
    (hkey : FileStore.get files w.m.Channel = some a)
    (hT : 0 ≤ cfg.Back) (hT64 : cfg.Back < 2 ^ 63) :
    (cfg.Back = 0 →
      body cfg t n w =
        ((.Walk cfg.Root :: out.map .Log) ++
          (.Log ("debug: Requested channel " ++ w.m.Channel) ::
            (follow n w (Join cfg.Root w.m.Channel) (baseConfig cfg) false).1),
          (follow n w (Join cfg.Root w.m.Channel) (baseConfig cfg) false).2) ∧
      follows (body cfg t n w).1 = [(Join cfg.Root w.m.Channel, baseConfig cfg)] ∧
      ∀ e ∈ (body cfg t n w).1, e.isStat = false) ∧
    (0 < cfg.Back → cfg.Back < S → w.stat (Join cfg.Root w.m.Channel) = .ok S →
      body cfg t n w =
        ((.Walk cfg.Root :: out.map .Log) ++
          (.Log ("debug: Requested channel " ++ w.m.Channel) ::
            .Stat (Join cfg.Root w.m.Channel) ::
            (follow n w (Join cfg.Root w.m.Channel)
              { baseConfig cfg with
                Location := some { Offset := -cfg.Back, Whence := SEEK_END } } true).1),
          (follow n w (Join cfg.Root w.m.Channel)
              { baseConfig cfg with
                Location := some { Offset := -cfg.Back, Whence := SEEK_END } } true).2) ∧
      follows (body cfg t n w).1 =
        [(Join cfg.Root w.m.Channel,
          { baseConfig cfg with
            Location := some { Offset := -cfg.Back, Whence := SEEK_END } })] ∧
      0 ≤ S + -cfg.Back ∧ S + -cfg.Back < S) ∧
    (0 < cfg.Back → S ≤ cfg.Back → w.stat (Join cfg.Root w.m.Channel) = .ok S →
      body cfg t n w =
        ((.Walk cfg.Root :: out.map .Log) ++
          (.Log ("debug: Requested channel " ++ w.m.Channel) ::
            .Stat (Join cfg.Root w.m.Channel) ::
            (follow n w (Join cfg.Root w.m.Channel) (baseConfig cfg) false).1),
          (follow n w (Join cfg.Root w.m.Channel) (baseConfig cfg) false).2) ∧
      follows (body cfg t n w).1 = [(Join cfg.Root w.m.Channel, baseConfig cfg)]) := by
  have hb := body_scan cfg t n w files out hq hp he hload
  rw [hkey] at hb
  simp only at hb
  refine ⟨fun h0 => ?_, fun hpos hlt hstat => ?_, fun hpos hle hstat => ?_⟩
  · have hsub : subscribe cfg t n w =
        follow n w (Join cfg.Root w.m.Channel) (baseConfig cfg) false := by
      unfold subscribe
      rw [if_neg (by simpa using h0)]
      rfl
    rw [hsub] at hb
    refine ⟨hb, by rw [hb, follows_scan, follows_follow], ?_⟩
    rw [hb]
    have hf := follow_no_stat n w (Join cfg.Root w.m.Channel) (baseConfig cfg) false
    simp only [List.cons_append, List.mem_cons, List.mem_append, List.mem_map,
      forall_eq_or_imp, or_imp, forall_and, forall_exists_index, and_imp]
    refine ⟨fun e he => by rw [he]; rfl, ?_, fun e he => by rw [he]; rfl, hf⟩
    intro e l _ hl
    rw [← hl]
    rfl
  · have hsub : subscribe cfg t n w =
        (.Stat (Join cfg.Root w.m.Channel) ::
          (follow n w (Join cfg.Root w.m.Channel)
            { baseConfig cfg with
              Location := some { Offset := -cfg.Back, Whence := SEEK_END } } true).1,
          (follow n w (Join cfg.Root w.m.Channel)
            { baseConfig cfg with
              Location := some { Offset := -cfg.Back, Whence := SEEK_END } } true).2) := by
      unfold subscribe
      rw [if_pos (by omega), hstat]
      simp only [if_pos (show S > cfg.Back from hlt), wrapInt64_neg cfg.Back hT hT64]
      rfl
    rw [hsub] at hb
    refine ⟨hb, ?_, by omega, by omega⟩
    rw [hb, follows_scan]
    simp only [follows, follows_follow]
  · have hsub : subscribe cfg t n w =
        (.Stat (Join cfg.Root w.m.Channel) ::
          (follow n w (Join cfg.Root w.m.Channel) (baseConfig cfg) false).1,
          (follow n w (Join cfg.Root w.m.Channel) (baseConfig cfg) false).2) := by
      unfold subscribe
      rw [if_pos (by omega), hstat]
      simp only [if_neg (show ¬ S > cfg.Back by omega)]
      rfl
    rw [hsub] at hb
    refine ⟨hb, ?_⟩
    rw [hb, follows_scan]
    simp only [follows, follows_follow]

/-! ## The theorems at sample inputs -/

/-- The ping theorem on a ping with text `x` while follow session 7 is held. -/
theorem ping_round_trip_witness :
    (sampleTurn { Channel := "#", Message := "x", Error := "" } (fun _ => none) [] .idle).m.Channel
      = "#" ∧
    sent (body defaultConfig (some 7) 8
      (sampleTurn { Channel := "#", Message := "x", Error := "" } (fun _ => none) [] .idle)).1 =
      [(.msg { Channel := "#", Message := "x", Error := "" }, none)] ∧
    (body defaultConfig (some 7) 8
      (sampleTurn { Channel := "#", Message := "x", Error := "" } (fun _ => none) [] .idle)).2 =
      .next (some 7) :=
  ⟨rfl,
    (ping_round_trip defaultConfig .EOF (some 7) 8
      (sampleTurn { Channel := "#", Message := "x", Error := "" } (fun _ => none) [] .idle) []
      rfl).1,
    ((ping_round_trip defaultConfig .EOF (some 7) 8
      (sampleTurn { Channel := "#", Message := "x", Error := "" } (fun _ => none) [] .idle) []
      rfl).2.2.1 rfl).1⟩

/-- The hostname theorem with the host `myhost` and with no host configured. -/
theorem hostname_query_witness :
    (sampleTurn { Channel := "?", Message := "", Error := "" } (fun _ => none) [] .idle).m.Channel
      = "?" ∧
    sent (body { defaultConfig with Host := "myhost" } none 0
      (sampleTurn { Channel := "?", Message := "", Error := "" } (fun _ => none) [] .idle)).1 =
      [(.msg { Channel := "?", Message := "myhost", Error := "" }, none)] ∧
    sent (body defaultConfig none 0
      (sampleTurn { Channel := "?", Message := "", Error := "" } (fun _ => none) [] .idle)).1 =
      [] :=
  ⟨rfl,
    (hostname_query { defaultConfig with Host := "myhost" } .EOF none 0
      (sampleTurn { Channel := "?", Message := "", Error := "" } (fun _ => none) [] .idle) []
      rfl).1 (by decide),
    (hostname_query defaultConfig .EOF none 0
      (sampleTurn { Channel := "?", Message := "", Error := "" } (fun _ => none) [] .idle) []
      rfl).2.1 rfl⟩

/-- The unknown channel theorem on a request for `missing.log` with a ping
queued behind it. -/
theorem unknown_channel_witness :
    loadLogs defaultConfig sampleRoot = ((sampleFiles, sampleOut), .done none) ∧
    FileStore.get sampleFiles "missing.log" = none ∧
    sent (loop defaultConfig .EOF (some 3) 4
      [sampleTurn { Channel := "missing.log", Message := "", Error := "" }
          (fun _ => none) [⟨"line 1"⟩] .idle,
        sampleTurn { Channel := "#", Message := "x", Error := "" } (fun _ => none) [] .idle]).1 =
      [(.msg { Channel := "missing.log", Message := "", Error := "Unknown logfile" }, none)] ∧
    receives (loop defaultConfig .EOF (some 3) 4
      [sampleTurn { Channel := "missing.log", Message := "", Error := "" }
          (fun _ => none) [⟨"line 1"⟩] .idle,
        sampleTurn { Channel := "#", Message := "x", Error := "" } (fun _ => none) [] .idle]).1 =
      1 :=
  ⟨rfl, rfl,
    (unknown_channel defaultConfig .EOF (some 3) 4
      (sampleTurn { Channel := "missing.log", Message := "", Error := "" }
        (fun _ => none) [⟨"line 1"⟩] .idle)
      [sampleTurn { Channel := "#", Message := "x", Error := "" } (fun _ => none) [] .idle]
      sampleFiles sampleOut (by decide) (by decide) (by decide) rfl rfl).2.1,
    (unknown_channel defaultConfig .EOF (some 3) 4
      (sampleTurn { Channel := "missing.log", Message := "", Error := "" }
        (fun _ => none) [⟨"line 1"⟩] .idle)
      [sampleTurn { Channel := "#", Message := "x", Error := "" } (fun _ => none) [] .idle]
      sampleFiles sampleOut (by decide) (by decide) (by decide) rfl rfl).2.2.1⟩

/-- The seek theorem on `app.log` of 50000 bytes with the default threshold of
5000 bytes, the follow ending on a failed read. -/
theorem seek_decision_witness :
    loadLogs defaultConfig sampleRoot = ((sampleFiles, sampleOut), .done none) ∧
    FileStore.get sampleFiles "app.log" = some { MTime := 1700, Size := 50000 } ∧
    (0 : Int) < defaultConfig.Back ∧ defaultConfig.Back < 50000 ∧
    body defaultConfig none 0
      (sampleTurn { Channel := "app.log", Message := "", Error := "" } (fun _ => none)
        [⟨"rtial line"⟩, ⟨"line 1"⟩] (.closed (some readFailed))) =
      ([.Walk "log/", .Log "debug: found logfile app.log", .Log "debug: found logfile error.log",
        .Log "debug: Requested channel app.log", .Stat "log/app.log",
        .TailFile "log/app.log"
          { Location := some { Offset := -5000, Whence := 2 }, ReOpen := true, Follow := true,
            MaxLineSize := 180, Poll := false } (some 0),
        .Log "debug: Sending line: line 1",
        .Send (.msg { Channel := "app.log", Message := "line 1", Error := "" }) none,
        .Wait 0,
        .Log "warn: tail run:  Error reading log/app.log: read log/app.log: input/output error"],
        .brk (some 0)) :=
  ⟨rfl, rfl, by decide, by decide,
    ((seek_decision defaultConfig none 0
      (sampleTurn { Channel := "app.log", Message := "", Error := "" } (fun _ => none)
        [⟨"rtial line"⟩, ⟨"line 1"⟩] (.closed (some readFailed)))
      sampleFiles sampleOut { MTime := 1700, Size := 50000 } 50000
      (by decide) (by decide) (by decide) rfl rfl (by decide) (by decide)).2.1
      (by decide) (by decide) rfl).1.trans rfl⟩

/-- The streaming theorem on three lines after a seek, every send succeeding. -/
theorem streaming_order_witness :
    loadLogs defaultConfig sampleRoot = ((sampleFiles, sampleOut), .done none) ∧
    FileStore.get sampleFiles "app.log" = some { MTime := 1700, Size := 50000 } ∧
    sent (body defaultConfig none 0
      (sampleTurn { Channel := "app.log", Message := "", Error := "" } (fun _ => none)
        [⟨"rtial line"⟩, ⟨"line 1"⟩, ⟨"line 2"⟩] (.closed (some readFailed)))).1 =
      [(.msg { Channel := "app.log", Message := "line 1", Error := "" }, none),
        (.msg { Channel := "app.log", Message := "line 2", Error := "" }, none)] :=
  ⟨rfl, rfl,
    ((streaming_order defaultConfig none 0
      (sampleTurn { Channel := "app.log", Message := "", Error := "" } (fun _ => none)
        [⟨"rtial line"⟩, ⟨"line 1"⟩, ⟨"line 2"⟩] (.closed (some readFailed)))
      sampleFiles sampleOut { MTime := 1700, Size := 50000 } 50000
      { Lines := [⟨"rtial line"⟩, ⟨"line 1"⟩, ⟨"line 2"⟩], Ends := .closed (some readFailed) }
      (by decide) (by decide) (by decide) rfl rfl (fun _ => rfl) (fun _ => rfl)).1
      (fun _ _ => rfl)).trans (by decide)⟩

/-- C1 at a failing input: the peer is gone while `app.log` is streamed.  The
subscription skips the line after the seek, the send of the next line fails
with a broken pipe and leaves the line loop, and the handler calls `Wait()` on
a follow that nobody stops and that still has a line to hand over: the call
never returns.  The handler does not proceed to its exit: the trace ends with
the call of `Wait()`, without `Cleanup`, and the handler stays blocked. -/
theorem stream_send_failure_blocks_handler :
    tailHandler defaultConfig brokenPipeWorld =
      ([.Receive (some { Channel := "app.log", Message := "", Error := "" }),
        .Walk "log/", .Log "debug: found logfile app.log", .Log "debug: found logfile error.log",
        .Log "debug: Requested channel app.log", .Stat "log/app.log",
        .TailFile "log/app.log"
          { Location := some { Offset := -5000, Whence := 2 }, ReOpen := true, Follow := true,
            MaxLineSize := 180, Poll := false } (some 0),
        .Log "debug: Sending line: line 1",
        .Send (.msg { Channel := "app.log", Message := "line 1", Error := "" })
          (some brokenPipe),
        .Wait 0], .blocked) ∧
    released (tailHandler defaultConfig brokenPipeWorld).1 = [] := by
  constructor <;> rfl

/-- C2 at a failing input: the peer is gone after the first line of
`error.log`.  The follow session 0 was started, the second send fails, and the
handler stays blocked in `Wait()`: `Cleanup` is called on no session, so that
session 0 is never released. -/
theorem session_not_released_after_send_failure :
    started (tailHandler defaultConfig lostPeerWorld).1 = [0] ∧
    released (tailHandler defaultConfig lostPeerWorld).1 = [] ∧
    sent (tailHandler defaultConfig lostPeerWorld).1 =
      [(.msg { Channel := "error.log", Message := "line 1", Error := "" }, none),
        (.msg { Channel := "error.log", Message := "line 2", Error := "" }, some brokenPipe)] ∧
    (tailHandler defaultConfig lostPeerWorld).2 = .blocked := by
  refine ⟨?_, ?_, ?_, ?_⟩ <;> rfl

/-! ## loadLogs -/

mutual
/-- The closure of `loadLogs` never returns an error: a visit ends with a nil
error or with a panic. -/
theorem visit_loadLogsFn (dir path : String) :
    ∀ (node : Node) (s : FileStore × List String) (e : error),
      (visit (loadLogsFn dir) path node s).2 ≠ .done (some e)
  | .absent err, s, e => by simp [visit, loadLogsFn]
  | .file kind mtime size, s, e => by simp [visit, loadLogsFn]
  | .dir mtime size readErr entries, s, e => by
    have h := walkNames_loadLogsFn dir path entries s e
    cases readErr <;> simp [visit, loadLogsFn]
    exact h
theorem walkNames_loadLogsFn (dir path : String) :
    ∀ (entries : Entries) (s : FileStore × List String) (e : error),
      (walkNames (loadLogsFn dir) path entries s).2 ≠ .done (some e)
  | .nil, s, e => by simp [walkNames]
  | .cons name node rest, s, e => by
    have h1 := visit_loadLogsFn dir (Join path name) node s
    rw [walkNames]
    rcases hv : visit (loadLogsFn dir) (Join path name) node s with ⟨s1, r⟩
    rw [hv] at h1
    cases r with
    | panic msg => simp
    | done err =>
      cases err with
      | none => exact walkNames_loadLogsFn dir path rest s1 e
      | some e1 => exact absurd rfl (h1 e1)
end

/-- C3 at failing inputs: `loadLogs` returns a non-nil error in no case at all.
On a root whose `Lstat` fails the closure dereferences the nil file info and
`loadLogs` panics; on a root whose names cannot be read it returns an empty
map and a nil error; and a listing request on the missing root ends the
handler by the panic, not by the `loadlogs` branch. -/
theorem loadLogs_returns_no_error :
    (∀ (cfg : Config) (fs : Node) (e : error), (loadLogs cfg fs).2 ≠ .done (some e)) ∧
    loadLogs defaultConfig missingRoot =
      (([], []), .panic "runtime error: invalid memory address or nil pointer dereference") ∧
    loadLogs defaultConfig unreadableRoot = (([], []), .done none) ∧
    tailHandler defaultConfig
      { turns := [{ sampleTurn { Channel := "", Message := "", Error := "" }
                      (fun _ => none) [] .idle with fs := missingRoot }],
        closing := .EOF } =
      ([.Receive (some { Channel := "", Message := "", Error := "" }), .Walk "log/"],
        .panicked) := by
  refine ⟨?_, rfl, rfl, rfl⟩
  intro cfg fs e
  have h := visit_loadLogsFn (TrimSuffix cfg.Root "/") cfg.Root fs ([], [])
  unfold loadLogs Walk
  rcases hv : visit (loadLogsFn (TrimSuffix cfg.Root "/")) cfg.Root fs ([], []) with ⟨s1, r⟩
  rw [hv] at h
  cases r with
  | panic msg => simp [hv]
  | done err =>
    cases err with
    | none => simp [hv]
    | some e1 => exact absurd rfl (h e1)

/-- C4 at failing inputs: with the root spelled `./log` or `log//` the walk
reports `log/app.log` and `log/error.log`, the prefix that `loadLogs` trims is
`./log/` or `log//`, and the keys stored still begin with the root directory;
the file name that `tailHandler` builds from such a key is `log/log/app.log`. -/
theorem unnormalised_root_keeps_root_in_key :
    (loadLogs { defaultConfig with Root := "./log" } sampleRoot).1.1 =
      [("log/app.log", { MTime := 1700, Size := 50000 }),
        ("log/error.log", { MTime := 1600, Size := 10 })] ∧
    (loadLogs { defaultConfig with Root := "log//" } sampleRoot).1.1 =
      [("log/app.log", { MTime := 1700, Size := 50000 }),
        ("log/error.log", { MTime := 1600, Size := 10 })] ∧
    (loadLogs { defaultConfig with Root := "log" } sampleRoot).1.1 = sampleFiles ∧
    Join "./log" "log/app.log" = "log/log/app.log" := by
  refine ⟨?_, ?_, ?_, ?_⟩ <;> rfl

/-- C5 at a failing input: a root with one regular file and one symbolic link
has one regular file among its items, and `loadLogs` stores two entries, one
of them for the link. -/
theorem symlink_is_recorded :
    regularFiles (Node.items defaultConfig.Root linkRoot) = 1 ∧
    (loadLogs defaultConfig linkRoot).1.1 =
      [("app.log", { MTime := 1700, Size := 50000 }), ("current", { MTime := 1800, Size := 7 })] ∧
    ("log/current", { IsDir := false, IsRegular := false, ModTime := 1800, Size := 7 }) ∈
      Node.items defaultConfig.Root linkRoot ∧
    FileStore.get (loadLogs defaultConfig linkRoot).1.1 (logKey defaultConfig "log/current") =
      some { MTime := 1800, Size := 7 } ∧
    (loadLogs defaultConfig linkRoot).1.1.length ≠
      regularFiles (Node.items defaultConfig.Root linkRoot) := by
  refine ⟨?_, ?_, ?_, ?_, ?_⟩ <;> decide

mutual
/-- On a well formed tree the walk of `loadLogs` calls the closure on the items
of the tree, in their order, and returns a nil error. -/
theorem visit_items (dir path : String) :
    ∀ (node : Node) (s : FileStore × List String), node.wellFormed = true →
      visit (loadLogsFn dir) path node s =
        ((Node.items path node).foldl (recordItem dir) s, .done none)
  | .absent err, s, h => by simp [Node.wellFormed] at h
  | .file kind mtime size, s, _ => by
    simp [visit, loadLogsFn, Node.items, recordItem]
  | .dir mtime size readErr entries, s, h => by
    cases readErr with
    | some e => simp [visit, loadLogsFn, Node.items, recordItem]
    | none =>
      have hw : entries.wellFormed = true := by simpa [Node.wellFormed] using h
      simp [visit, loadLogsFn, Node.items, recordItem, walkNames_items dir path entries s hw]
theorem walkNames_items (dir path : String) :
    ∀ (entries : Entries) (s : FileStore × List String), entries.wellFormed = true →
      walkNames (loadLogsFn dir) path entries s =
        ((Entries.items path entries).foldl (recordItem dir) s, .done none)
  | .nil, s, _ => by simp [walkNames, Entries.items]
  | .cons name node rest, s, h => by
    have hw : node.wellFormed = true ∧ rest.wellFormed = true := by
      simp [Entries.wellFormed] at h
      exact ⟨h.1.2, h.2⟩
    rw [walkNames, visit_items dir (Join path name) node s hw.1]
    simp only [Entries.items, List.foldl_append]
    exact walkNames_items dir path rest _ hw.2
end

/-! ## Paths -/

theorem intercalate_eq_joinSlash (segs : List (List Char)) :
    ['/'].intercalate segs = joinSlash segs := by
  induction segs with
  | nil => rfl
  | cons c rest ih =>
    cases rest with
    | nil => simp [List.intercalate, joinSlash]
    | cons d rest =>
      simp only [joinSlash, ← ih]
      simp [List.intercalate]

theorem splitSlash_ne_nil (p : List Char) : splitSlash p ≠ [] := by
  induction p with
  | nil => simp [splitSlash]
  | cons c cs ih =>
    unfold splitSlash
    split
    · simp
    · split <;> simp

theorem splitSlash_cons_of_ne (c : Char) (cs : List Char) (h : c ≠ '/') :
    ∃ p ps, splitSlash cs = p :: ps ∧ splitSlash (c :: cs) = (c :: p) :: ps := by
  cases hs : splitSlash cs with
  | nil => exact absurd hs (splitSlash_ne_nil cs)
  | cons p ps => exact ⟨p, ps, rfl, by simp [splitSlash, h, hs]⟩

theorem splitSlash_append_slash (a b : List Char) :
    splitSlash (a ++ '/' :: b) = splitSlash a ++ splitSlash b := by
  induction a with
  | nil => simp [splitSlash]
  | cons c cs ih =>
    by_cases hc : c = '/'
    · simp [splitSlash, hc, ih]
    · obtain ⟨p, ps, h1, h2⟩ := splitSlash_cons_of_ne c cs hc
      rw [h2]
      have : splitSlash (c :: (cs ++ '/' :: b)) = (c :: p) :: (ps ++ splitSlash b) := by
        simp [splitSlash, hc, ih, h1]
      simpa using this

theorem splitSlash_of_noSlash (n : List Char) (h : '/' ∉ n) : splitSlash n = [n] := by
  induction n with
  | nil => rfl
  | cons c cs ih =>
    have hc : c ≠ '/' := fun e => h (by simp [e])
    have hcs : '/' ∉ cs := fun e => h (by simp [e])
    simp [splitSlash, hc, ih hcs]

theorem joinSlash_splitSlash (p : List Char) : joinSlash (splitSlash p) = p := by
  induction p with
  | nil => rfl
  | cons c cs ih =>
    by_cases hc : c = '/'
    · obtain ⟨q, qs, hq⟩ := List.exists_cons_of_ne_nil (splitSlash_ne_nil cs)
      simp [splitSlash, hc]
      rw [hq, joinSlash, ← hq, ih]
      simp
    · obtain ⟨p, ps, h1, h2⟩ := splitSlash_cons_of_ne c cs hc
      rw [h2]
      rw [h1] at ih
      cases ps with
      | nil => simpa [joinSlash] using ih
      | cons d rest =>
        simp only [joinSlash] at ih ⊢
        simp [← ih]

theorem splitSlash_joinSlash (segs : List (List Char)) (hne : segs ≠ [])
    (h : ∀ c ∈ segs, '/' ∉ c) : splitSlash (joinSlash segs) = segs := by
  induction segs with
  | nil => exact absurd rfl hne
  | cons c rest ih =>
    cases rest with
    | nil => simpa [joinSlash] using splitSlash_of_noSlash c (h c (by simp))
    | cons d rest =>
      rw [joinSlash, splitSlash_append_slash, splitSlash_of_noSlash c (h c (by simp)),
        ih (by simp) (fun x hx => h x (by simp [hx]))]
      simp

theorem mem_splitSlash (p : List Char) : ∀ c ∈ splitSlash p, '/' ∉ c := by
  induction p with
  | nil => simp [splitSlash]
  | cons c cs ih =>
    by_cases hc : c = '/'
    · simp only [splitSlash, hc, if_true, List.mem_cons]
      rintro x (rfl | hx)
      · simp
      · exact ih x hx
    · obtain ⟨p, ps, h1, h2⟩ := splitSlash_cons_of_ne c cs hc
      rw [h2]
      rw [h1] at ih
      intro x hx
      rcases List.mem_cons.1 hx with rfl | hx
      · have := ih p (by simp)
        simp only [List.mem_cons, not_or]
        exact ⟨fun e => hc e.symm, this⟩
      · exact ih x (by simp [hx])

theorem validName_iff (c : List Char) :
    validName c = true ↔ c ≠ [] ∧ '/' ∉ c ∧ c ≠ ['.'] ∧ c ≠ ['.', '.'] := by
  simp [validName, and_assoc]

theorem cleanStep_valid (r : Bool) (st : List (List Char)) (c : List Char)
    (h : validName c = true) : cleanStep r st c = c :: st := by
  obtain ⟨h1, -, h3, h4⟩ := (validName_iff c).1 h
  simp [cleanStep, h1, h3, h4]

theorem okStack_proper (r : Bool) : ∀ (st : List (List Char)), okStack r st →
    ∀ c ∈ st, c ≠ [] ∧ '/' ∉ c
  | [], _, c, hc => by simp at hc
  | d :: rest, h, c, hc => by
    rcases List.mem_cons.1 hc with rfl | hc
    · rcases h.2 with hv | ⟨rfl, -, -⟩
      · exact ⟨((validName_iff c).1 hv).1, ((validName_iff c).1 hv).2.1⟩
      · decide
    · exact okStack_proper r rest h.1 c hc

theorem okStack_append_right (r : Bool) : ∀ (a b : List (List Char)), okStack r (a ++ b) →
    okStack r b
  | [], _, h => h
  | _ :: a, b, h => okStack_append_right r a b h.1

theorem okStack_names (r : Bool) (st : List (List Char)) (hst : okStack r st) :
    ∀ (names : List (List Char)), (∀ c ∈ names, validName c = true) → okStack r (names ++ st)
  | [], _ => hst
  | c :: names, h =>
    ⟨okStack_names r st hst names (fun x hx => h x (by simp [hx])), Or.inl (h c (by simp))⟩

theorem okStack_cleanStep (r : Bool) (st : List (List Char)) (c : List Char)
    (hst : okStack r st) (hc : '/' ∉ c) : okStack r (cleanStep r st c) := by
  unfold cleanStep
  by_cases h1 : c = [] ∨ c = ['.']
  · rw [if_pos h1]; exact hst
  · rw [if_neg h1]
    by_cases h2 : c = ['.', '.']
    · rw [if_pos h2]
      cases st with
      | nil =>
        cases r with
        | true => simp [okStack]
        | false => simp [okStack, h2]
      | cons top rest =>
        by_cases h3 : top = ['.', '.']
        · simp only [if_pos h3]
          refine ⟨hst, Or.inr ⟨h2, ?_, Or.inr (by simp [h3])⟩⟩
          rcases hst.2 with hv | ⟨-, hr, -⟩
          · rw [h3] at hv; exact absurd hv (by decide)
          · exact hr
        · simp only [if_neg h3]
          exact hst.1
    · rw [if_neg h2]
      refine ⟨hst, Or.inl ?_⟩
      rw [validName_iff]
      exact ⟨fun e => h1 (Or.inl e), hc, fun e => h1 (Or.inr e), h2⟩

theorem okStack_foldl (r : Bool) : ∀ (segs : List (List Char)) (st : List (List Char)),
    okStack r st → (∀ c ∈ segs, '/' ∉ c) → okStack r (segs.foldl (cleanStep r) st)
  | [], _, hst, _ => hst
  | c :: segs, st, hst, h =>
    okStack_foldl r segs _ (okStack_cleanStep r st c hst (h c (by simp)))
      (fun x hx => h x (by simp [hx]))

theorem okStack_cleanStack (r : Bool) (p : List Char) : okStack r (cleanStack r p) :=
  okStack_foldl r _ [] trivial (mem_splitSlash p)

/-- Cleaning the elements of a clean stack gives the stack back. -/
theorem foldl_cleanStep_ok (r : Bool) : ∀ (st : List (List Char)), okStack r st →
    st.reverse.foldl (cleanStep r) [] = st
  | [], _ => rfl
  | c :: rest, h => by
    rw [List.reverse_cons, List.foldl_append, foldl_cleanStep_ok r rest h.1]
    rcases h.2 with hv | ⟨rfl, hr, hrest⟩
    · simp [cleanStep_valid r rest c hv]
    · subst hr
      rcases hrest with rfl | hh
      · simp [cleanStep]
      · cases rest with
        | nil => simp at hh
        | cons top rest =>
          have : top = ['.', '.'] := by simpa using hh
          simp [cleanStep, this]

theorem joinSlash_eq_nil (segs : List (List Char)) (h : ∀ c ∈ segs, c ≠ []) :
    joinSlash segs = [] ↔ segs = [] := by
  cases segs with
  | nil => simp [joinSlash]
  | cons c rest =>
    cases rest with
    | nil => simpa [joinSlash] using h c (by simp)
    | cons d rest => simp [joinSlash]

theorem joinSlash_head (segs : List (List Char)) (h : ∀ c ∈ segs, c ≠ [] ∧ '/' ∉ c) :
    (joinSlash segs).head? ≠ some '/' := by
  cases segs with
  | nil => simp [joinSlash]
  | cons c rest =>
    have hc := h c (by simp)
    cases c with
    | nil => exact absurd rfl hc.1
    | cons x xs =>
      have hx : x ≠ '/' := fun e => hc.2 (by simp [e])
      cases rest with
      | nil => simpa [joinSlash] using hx
      | cons d rest => simpa [joinSlash] using hx

theorem renderPath_ne_nil (r : Bool) (st : List (List Char)) : renderPath r st ≠ [] := by
  unfold renderPath
  cases r with
  | true => simp
  | false =>
    by_cases h : ['/'].intercalate st.reverse = []
    · simp [h]
    · simp [h]

theorem renderPath_head (r : Bool) (st : List (List Char)) (hst : okStack r st) :
    decide ((renderPath r st).head? = some '/') = r := by
  have hp : ∀ c ∈ st.reverse, c ≠ [] ∧ '/' ∉ c := fun c hc =>
    okStack_proper r st hst c (by simpa using hc)
  unfold renderPath
  cases r with
  | true => simp
  | false =>
    simp only [intercalate_eq_joinSlash]
    by_cases h : joinSlash st.reverse = []
    · simp [h]
    · simpa [h] using joinSlash_head _ hp

theorem cleanStack_renderPath (r : Bool) (st : List (List Char)) (hst : okStack r st) :
    cleanStack r (renderPath r st) = st := by
  have hp : ∀ c ∈ st.reverse, c ≠ [] ∧ '/' ∉ c := fun c hc =>
    okStack_proper r st hst c (by simpa using hc)
  have hnil := joinSlash_eq_nil st.reverse (fun c hc => (hp c hc).1)
  unfold cleanStack renderPath
  simp only [intercalate_eq_joinSlash]
  by_cases hs : st = []
  · subst hs
    cases r <;> simp [joinSlash, splitSlash, cleanStep]
  · have hne : st.reverse ≠ [] := by simpa using hs
    have hj : joinSlash st.reverse ≠ [] := fun e => hne (hnil.1 e)
    have hsplit := splitSlash_joinSlash st.reverse hne (fun c hc => (hp c hc).2)
    cases r with
    | true =>
      simp only [if_true]
      have : splitSlash ('/' :: joinSlash st.reverse) = [] :: st.reverse := by
        simp [splitSlash, hsplit]
      rw [this]
      simp only [List.foldl_cons]
      have h0 : cleanStep true [] [] = [] := by simp [cleanStep]
      rw [h0]
      exact foldl_cleanStep_ok true st hst
    | false =>
      simp only [Bool.false_eq_true, if_false, if_neg hj, hsplit]
      exact foldl_cleanStep_ok false st hst

/-- Cleaning a path that ends in a slash and a valid name puts the name on the
stack of the path before the slash. -/
theorem cleanChars_append_name (a n : List Char) (ha : a ≠ []) (hn : validName n = true) :
    cleanChars (a ++ '/' :: n) =
      renderPath (decide (a.head? = some '/'))
        (n :: cleanStack (decide (a.head? = some '/')) a) := by
  have hns : '/' ∉ n := ((validName_iff n).1 hn).2.1
  have hh : (a ++ '/' :: n).head? = a.head? := by
    cases a with
    | nil => exact absurd rfl ha
    | cons x xs => rfl
  unfold cleanChars
  rw [if_neg (by simp)]
  simp only [hh]
  congr 1
  unfold cleanStack
  rw [splitSlash_append_slash, splitSlash_of_noSlash n hns, List.foldl_append]
  simp [cleanStep_valid _ _ n hn]

theorem cleanChars_name (n : List Char) (hn : validName n = true) :
    cleanChars n = renderPath false [n] := by
  obtain ⟨h1, h2, h3, h4⟩ := (validName_iff n).1 hn
  have hh : n.head? ≠ some '/' := by
    cases n with
    | nil => simp
    | cons x xs =>
      have : x ≠ '/' := fun e => h2 (by simp [e])
      simpa using this
  unfold cleanChars
  rw [if_neg h1]
  simp only [hh, decide_False]
  congr 1
  unfold cleanStack
  rw [splitSlash_of_noSlash n h2]
  simp [cleanStep_valid _ _ n hn]


theorem string_ne_empty (a : String) : a ≠ "" ↔ a.data ≠ [] := by
  rw [Ne, String.ext_iff]

theorem data_append_slash (a b : String) : (a ++ "/" ++ b).data = a.data ++ '/' :: b.data := by
  simp [String.data_append]

theorem validName_ne_empty (name : String) (h : validName name.data = true) : name ≠ "" :=
  (string_ne_empty name).2 ((validName_iff _).1 h).1

/-- The entries of the root are reported under the cleaned root and the name. -/
theorem parent_root (root : String) :
    Parent root (decide (root.data.head? = some '/'))
      (cleanStack (decide (root.data.head? = some '/')) root.data) := by
  refine ⟨okStack_cleanStack _ _, fun name hn => ?_⟩
  by_cases hr : root = ""
  · subst hr
    have h1 : Join "" name = Clean name := by
      unfold Join
      rw [if_neg (by simp), if_pos (validName_ne_empty name hn)]
    rw [h1]
    unfold Clean
    rw [cleanChars_name _ hn]
    rfl
  · have h1 : Join root name = Clean (root ++ "/" ++ name) := by
      unfold Join
      rw [if_pos hr]
    rw [h1]
    unfold Clean
    rw [data_append_slash, cleanChars_append_name _ _ ((string_ne_empty root).1 hr) hn]

/-- The entries of a directory below the root are reported under the path of
the directory and the name. -/
theorem parent_child (a : String) (r : Bool) (st : List (List Char)) (name : String)
    (h : Parent a r st) (hn : validName name.data = true) :
    Parent (Join a name) r (name.data :: st) := by
  have hok : okStack r (name.data :: st) := ⟨h.1, Or.inl hn⟩
  refine ⟨hok, fun m hm => ?_⟩
  rw [h.2 name hn]
  have hne : (⟨renderPath r (name.data :: st)⟩ : String) ≠ "" :=
    (string_ne_empty _).2 (renderPath_ne_nil _ _)
  unfold Join
  rw [if_pos hne]
  unfold Clean
  rw [data_append_slash, cleanChars_append_name _ _ (renderPath_ne_nil _ _) hm]
  simp only [renderPath_head r _ hok, cleanStack_renderPath r _ hok]

/-- The paths of the items of a walk that are not directories. -/
theorem filePaths_append (a b : List (String × FileInfo)) :
    ((a ++ b).filter fun it => !it.2.IsDir).map Prod.fst =
      (a.filter fun it => !it.2.IsDir).map Prod.fst ++
        (b.filter fun it => !it.2.IsDir).map Prod.fst := by
  simp

mutual
theorem node_filePaths (r : Bool) :
    ∀ (node : Node) (p : String) (st : List (List Char)), node.wellFormed = true →
      p = ⟨renderPath r st⟩ → Parent p r st →
      ((Node.items p node).filter fun it => !it.2.IsDir).map Prod.fst =
        (Node.rels node).map fun rel => ⟨renderPath r (rel ++ st)⟩
  | .absent _, _, _, h, _, _ => by simp [Node.wellFormed] at h
  | .file _ _ _, p, st, _, hp, _ => by simp [Node.items, Node.rels, hp]
  | .dir _ _ readErr entries, p, st, h, _, hpar => by
    cases readErr with
    | some e => simp [Node.items, Node.rels]
    | none =>
      have hw : entries.wellFormed = true := by simpa [Node.wellFormed] using h
      have := entries_filePaths r entries p st hw hpar
      simpa [Node.items, Node.rels] using this
theorem entries_filePaths (r : Bool) :
    ∀ (entries : Entries) (a : String) (st : List (List Char)), entries.wellFormed = true →
      Parent a r st →
      ((Entries.items a entries).filter fun it => !it.2.IsDir).map Prod.fst =
        (Entries.rels entries).map fun rel => ⟨renderPath r (rel ++ st)⟩
  | .nil, _, _, _, _ => by simp [Entries.items, Entries.rels]
  | .cons name node rest, a, st, h, hpar => by
    have hw : validName name.data = true ∧ node.wellFormed = true ∧ rest.wellFormed = true := by
      simp only [Entries.wellFormed, Bool.and_eq_true] at h
      exact ⟨h.1.1.1, h.1.2, h.2⟩
    have h1 := node_filePaths r node (Join a name) (name.data :: st) hw.2.1
      (hpar.2 name hw.1) (parent_child a r st name hpar hw.1)
    have h2 := entries_filePaths r rest a st hw.2.2 hpar
    rw [Entries.items, filePaths_append, h1, h2, Entries.rels]
    simp
end


mutual
/-- The places of a well formed tree are made of valid names and differ from
one another. -/
theorem node_rels (node : Node) (h : node.wellFormed = true) :
    (∀ rel ∈ Node.rels node, ∀ c ∈ rel, validName c = true) ∧ (Node.rels node).Nodup :=
  match node, h with
  | .absent _, h => by simp [Node.wellFormed] at h
  | .file _ _ _, _ => by simp [Node.rels]
  | .dir _ _ readErr entries, h => by
    cases readErr with
    | some e => simp [Node.rels]
    | none =>
      have hw : entries.wellFormed = true := by simpa [Node.wellFormed] using h
      have := entries_rels entries hw
      simp only [Node.rels, Option.isSome_none, Bool.false_eq_true, if_false]
      exact ⟨fun rel hrel c hc => (this.1 rel hrel).1 c hc, this.2⟩
theorem entries_rels (entries : Entries) (h : entries.wellFormed = true) :
    (∀ rel ∈ Entries.rels entries,
      (∀ c ∈ rel, validName c = true) ∧
        ∃ name ∈ Entries.names entries, rel.getLast? = some name.data) ∧
      (Entries.rels entries).Nodup :=
  match entries, h with
  | .nil, _ => by simp [Entries.rels]
  | .cons name node rest, h => by
    have hw : validName name.data = true ∧ name ∉ Entries.names rest ∧
        node.wellFormed = true ∧ rest.wellFormed = true := by
      simp only [Entries.wellFormed, Bool.and_eq_true, decide_eq_true_eq] at h
      exact ⟨h.1.1.1, h.1.1.2, h.1.2, h.2⟩
    obtain ⟨hv, hnot, hn, hr⟩ := hw
    have h1 := node_rels node hn
    have h2 := entries_rels rest hr
    refine ⟨?_, ?_⟩
    · intro rel hrel
      simp only [Entries.rels, List.mem_append, List.mem_map] at hrel
      rcases hrel with ⟨rel0, h0, rfl⟩ | hrel
      · refine ⟨?_, name, by simp [Entries.names], by simp⟩
        intro c hc
        rcases List.mem_append.1 hc with hc | hc
        · exact h1.1 rel0 h0 c hc
        · simp only [List.mem_singleton] at hc
          rw [hc]; exact hv
      · obtain ⟨hc, m, hm, hl⟩ := h2.1 rel hrel
        exact ⟨hc, m, by simp [Entries.names, hm], hl⟩
    · rw [Entries.rels, List.nodup_append]
      refine ⟨?_, h2.2, ?_⟩
      · exact h1.2.map (fun x y hxy => List.append_cancel_right hxy)
      · intro rel ha hb
        simp only [List.mem_map] at ha
        obtain ⟨rel0, -, rfl⟩ := ha
        obtain ⟨-, m, hm, hl⟩ := h2.1 _ hb
        simp only [List.getLast?_append, List.getLast?_singleton, Option.or,
          Option.some.injEq] at hl
        have : name = m := String.ext hl
        exact hnot (this ▸ hm)
end


theorem joinSlash_append (a b : List (List Char)) (ha : a ≠ []) (hb : b ≠ []) :
    joinSlash (a ++ b) = joinSlash a ++ '/' :: joinSlash b := by
  induction a with
  | nil => exact absurd rfl ha
  | cons c rest ih =>
    cases rest with
    | nil =>
      obtain ⟨d, b', rfl⟩ := List.exists_cons_of_ne_nil hb
      simp [joinSlash]
    | cons d rest =>
      have := ih (by simp)
      simp only [List.cons_append] at this ⊢
      simp [joinSlash, this]

theorem pathSegs_append (r : Bool) (rel st : List (List Char)) :
    pathSegs r (rel ++ st) = pathSegs r st ++ rel.reverse := by
  simp [pathSegs]

theorem pathSegs_ne_nil (r : Bool) (st : List (List Char)) (h : st ≠ []) :
    pathSegs r st ≠ [] := by
  simp [pathSegs, h]

theorem renderPath_eq_joinSlash (r : Bool) (st : List (List Char)) (hne : st ≠ [])
    (hp : ∀ c ∈ st, c ≠ []) : renderPath r st = joinSlash (pathSegs r st) := by
  have hrev : st.reverse ≠ [] := by simpa using hne
  have hj : joinSlash st.reverse ≠ [] := fun e =>
    hrev ((joinSlash_eq_nil st.reverse (fun c hc => hp c (by simpa using hc))).1 e)
  unfold renderPath pathSegs
  simp only [intercalate_eq_joinSlash]
  cases r with
  | true =>
    obtain ⟨x, xs, hx⟩ := List.exists_cons_of_ne_nil hrev
    simp [hx, joinSlash]
  | false => simp [hj]

/-- What `TrimSuffix` leaves of the root has the clean stack of the root. -/
theorem cleanStack_trimSuffix (r : Bool) (root : String) :
    cleanStack r root.data =
      (splitSlash (TrimSuffix root "/").data).foldl (cleanStep r) [] := by
  unfold TrimSuffix
  by_cases h : "/".data.isSuffixOf root.data = true
  · rw [if_pos h]
    have hs : ['/'] <:+ root.data := by simpa using h
    have h2 := List.suffix_iff_eq_append.1 hs
    simp only [List.length_singleton] at h2
    have h3 : "/".data.length = 1 := rfl
    simp only [h3]
    generalize List.take (root.data.length - 1) root.data = t at h2
    unfold cleanStack
    rw [← h2, show t ++ ['/'] = t ++ '/' :: [] from rfl, splitSlash_append_slash,
      List.foldl_append]
    simp [splitSlash, cleanStep]
  · rw [if_neg h]
    rfl

/-- When the prefix that `loadLogs` trims begins one of the paths below the
root, its elements are those of the cleaned root. -/
theorem segs_of_matched (r : Bool) (d x : List Char) (rel1 : List (List Char))
    (hv : ∀ c ∈ rel1, validName c = true)
    (h : renderPath r (rel1 ++ (splitSlash d).foldl (cleanStep r) []) = d ++ '/' :: x)
    (hne : rel1 ≠ []) :
    splitSlash d = pathSegs r ((splitSlash d).foldl (cleanStep r) []) := by
  have hok0 : okStack r ((splitSlash d).foldl (cleanStep r) []) :=
    okStack_foldl r _ [] trivial (mem_splitSlash d)
  generalize hst : (splitSlash d).foldl (cleanStep r) [] = st0 at h hok0
  have hok : okStack r (rel1 ++ st0) := okStack_names r st0 hok0 rel1 hv
  have hne1 : rel1 ++ st0 ≠ [] := by simp [hne]
  have hsplit : splitSlash (renderPath r (rel1 ++ st0)) = pathSegs r (rel1 ++ st0) := by
    rw [renderPath_eq_joinSlash r _ hne1 (fun c hc => (okStack_proper r _ hok c hc).1)]
    apply splitSlash_joinSlash _ (pathSegs_ne_nil r _ hne1)
    intro c hc
    simp only [pathSegs, List.mem_append, List.mem_reverse] at hc
    rcases hc with hc | hc
    · cases r <;> simp at hc
      rw [hc]; simp
    · exact (okStack_proper r _ hok c (List.mem_append.2 hc)).2
  rw [h, splitSlash_append_slash] at hsplit
  obtain ⟨e, D, hD⟩ := List.exists_cons_of_ne_nil (splitSlash_ne_nil d)
  rw [hD] at hst hsplit ⊢
  cases r with
  | true =>
    simp only [pathSegs, if_true, List.cons_append, List.nil_append, List.cons.injEq] at hsplit ⊢
    obtain ⟨he, hrest⟩ := hsplit
    subst he
    have h1 : rel1 ++ st0 = (splitSlash x).reverse ++ D.reverse := by
      rw [← List.reverse_append, hrest, List.reverse_reverse]
    have h2 : okStack true D.reverse := okStack_append_right true _ _ (h1 ▸ hok)
    have h3 := foldl_cleanStep_ok true D.reverse h2
    rw [List.reverse_reverse] at h3
    have h4 : st0 = D.reverse := by
      rw [← hst, List.foldl_cons, show cleanStep true [] [] = [] from by simp [cleanStep], h3]
    rw [h4, List.reverse_reverse]
    exact ⟨rfl, rfl⟩
  | false =>
    simp only [pathSegs, Bool.false_eq_true, if_false, List.nil_append] at hsplit ⊢
    have h1 : rel1 ++ st0 = (splitSlash x).reverse ++ (e :: D).reverse := by
      rw [← List.reverse_append, hsplit, List.reverse_reverse]
    have h2 : okStack false (e :: D).reverse := okStack_append_right false _ _ (h1 ▸ hok)
    have h3 := foldl_cleanStep_ok false (e :: D).reverse h2
    rw [List.reverse_reverse] at h3
    rw [← hst, h3, List.reverse_reverse]

/-- When the elements of the trimmed prefix are those of the cleaned root, the
prefix begins every path below the root. -/
theorem matched_of_segs (r : Bool) (d : List Char) (rel : List (List Char))
    (hv : ∀ c ∈ rel, validName c = true) (hne : rel ≠ [])
    (h : splitSlash d = pathSegs r ((splitSlash d).foldl (cleanStep r) [])) :
    renderPath r (rel ++ (splitSlash d).foldl (cleanStep r) []) =
      (d ++ ['/']) ++ joinSlash rel.reverse := by
  have hok0 : okStack r ((splitSlash d).foldl (cleanStep r) []) :=
    okStack_foldl r _ [] trivial (mem_splitSlash d)
  generalize (splitSlash d).foldl (cleanStep r) [] = st0 at h hok0
  have hok : okStack r (rel ++ st0) := okStack_names r st0 hok0 rel hv
  have hne1 : rel ++ st0 ≠ [] := by simp [hne]
  rw [renderPath_eq_joinSlash r _ hne1 (fun c hc => (okStack_proper r _ hok c hc).1),
    pathSegs_append, ← h, joinSlash_append _ _ (splitSlash_ne_nil d) (by simpa using hne),
    joinSlash_splitSlash]
  simp


theorem renderPath_injective (r : Bool) (s1 s2 : List (List Char)) (h1 : okStack r s1)
    (h2 : okStack r s2) (h : renderPath r s1 = renderPath r s2) : s1 = s2 := by
  rw [← cleanStack_renderPath r s1 h1, ← cleanStack_renderPath r s2 h2, h]

theorem trimPrefix_matched (pre : String) (x : List Char) :
    TrimPrefix ⟨pre.data ++ x⟩ pre = ⟨x⟩ := by
  unfold TrimPrefix
  simp

theorem trimPrefix_unmatched (s pre : String) (h : ¬ pre.data <+: s.data) :
    TrimPrefix s pre = s := by
  unfold TrimPrefix
  simp [h]

/-- The keys of the paths below the root differ from one another. -/
theorem logKey_injective (cfg : Config) (rels : List (List (List Char)))
    (hv : ∀ rel ∈ rels, (∀ c ∈ rel, validName c = true) ∧ rel ≠ []) :
    ∀ rel ∈ rels, ∀ rel' ∈ rels,
      logKey cfg ⟨renderPath (decide (cfg.Root.data.head? = some '/'))
          (rel ++ cleanStack (decide (cfg.Root.data.head? = some '/')) cfg.Root.data)⟩ =
        logKey cfg ⟨renderPath (decide (cfg.Root.data.head? = some '/'))
          (rel' ++ cleanStack (decide (cfg.Root.data.head? = some '/')) cfg.Root.data)⟩ →
      rel = rel' := by
  generalize hr : decide (cfg.Root.data.head? = some '/') = r
  have hst := cleanStack_trimSuffix r cfg.Root
  generalize hd : (TrimSuffix cfg.Root "/").data = d at hst
  have hpre : (TrimSuffix cfg.Root "/" ++ "/").data = d ++ ['/'] := by
    simp [String.data_append, hd]
  have hok0 : okStack r (cleanStack r cfg.Root.data) := okStack_cleanStack r _
  have hinj : ∀ rel ∈ rels, ∀ rel' ∈ rels,
      renderPath r (rel ++ cleanStack r cfg.Root.data) =
        renderPath r (rel' ++ cleanStack r cfg.Root.data) → rel = rel' := by
    intro rel h1 rel' h2 he
    exact List.append_cancel_right
      (renderPath_injective r _ _ (okStack_names r _ hok0 rel (hv rel h1).1)
        (okStack_names r _ hok0 rel' (hv rel' h2).1) he)
  intro rel h1 rel' h2
  unfold logKey
  by_cases hE : ∃ rel1 ∈ rels,
      (d ++ ['/']) <+: renderPath r (rel1 ++ cleanStack r cfg.Root.data)
  · obtain ⟨rel1, hm, x, hx⟩ := hE
    rw [hst] at hx
    have hsegs := segs_of_matched r d x rel1 (hv rel1 hm).1 (by simpa using hx.symm)
      (hv rel1 hm).2
    have e1 := matched_of_segs r d rel (hv rel h1).1 (hv rel h1).2 hsegs
    have e2 := matched_of_segs r d rel' (hv rel' h2).1 (hv rel' h2).2 hsegs
    rw [← hst] at e1 e2
    intro hk
    apply hinj rel h1 rel' h2
    rw [e1, e2]
    rw [e1, e2, ← hpre, trimPrefix_matched, trimPrefix_matched] at hk
    have hk' : joinSlash rel.reverse = joinSlash rel'.reverse := String.ext_iff.1 hk
    rw [hk']
  · have hno : ∀ rel0 ∈ rels, ¬ (TrimSuffix cfg.Root "/" ++ "/").data <+:
        (⟨renderPath r (rel0 ++ cleanStack r cfg.Root.data)⟩ : String).data := by
      intro rel0 h0 hp
      rw [hpre] at hp
      exact hE ⟨rel0, h0, hp⟩
    rw [trimPrefix_unmatched _ _ (hno rel h1), trimPrefix_unmatched _ _ (hno rel' h2)]
    intro hk
    exact hinj rel h1 rel' h2 (String.ext_iff.1 hk)

theorem put_of_not_mem (fs : FileStore) (k : String) (v : FileAttr)
    (h : k ∉ fs.map Prod.fst) : FileStore.put fs k v = fs ++ [(k, v)] := by
  induction fs with
  | nil => rfl
  | cons e rest ih =>
    obtain ⟨k1, v1⟩ := e
    have h1 : k1 ≠ k := fun e => h (by simp [e])
    have h2 : k ∉ rest.map Prod.fst := fun e => h (by simp [e])
    simp [FileStore.put, h1, ih h2]

theorem get_of_mem (fs : FileStore) (k : String) (v : FileAttr)
    (hn : (fs.map Prod.fst).Nodup) (h : (k, v) ∈ fs) : FileStore.get fs k = some v := by
  induction fs with
  | nil => simp at h
  | cons e rest ih =>
    obtain ⟨k1, v1⟩ := e
    simp only [List.map_cons, List.nodup_cons] at hn
    rcases List.mem_cons.1 h with he | he
    · simp only [Prod.mk.injEq] at he
      simp [FileStore.get, he.1, he.2]
    · have h1 : k1 ≠ k := by
        intro e
        apply hn.1
        rw [e]
        exact List.mem_map.2 ⟨(k, v), he, rfl⟩
      simp [FileStore.get, h1, ih hn.2 he]

/-- The closure of `loadLogs` adds one entry for every item that is not a
directory when the keys of these items are new and differ from one another. -/
theorem foldl_recordItem (dir : String) :
    ∀ (items : List (String × FileInfo)) (s : FileStore × List String),
      (s.1.map Prod.fst ++ (items.filter fun it => !it.2.IsDir).map
        fun it => TrimPrefix it.1 (dir ++ "/")).Nodup →
      (items.foldl (recordItem dir) s).1 =
        s.1 ++ (items.filter fun it => !it.2.IsDir).map fun it =>
          (TrimPrefix it.1 (dir ++ "/"), { MTime := it.2.ModTime, Size := it.2.Size })
  | [], s, _ => by simp
  | it :: items, s, h => by
    rw [List.foldl_cons]
    by_cases hd : it.2.IsDir = true
    · have hs : recordItem dir s it = s := by simp [recordItem, hd]
      rw [hs, foldl_recordItem dir items s (by simpa [hd] using h)]
      simp [hd]
    · have hd' : it.2.IsDir = false := by simpa using hd
      have hnot : TrimPrefix it.1 (dir ++ "/") ∉ s.1.map Prod.fst := by
        intro hm
        simp only [List.filter_cons, hd', Bool.not_false, if_true, List.map_cons] at h
        have := (List.nodup_append.1 h).2.2
        exact this hm (by simp)
      have hs : (recordItem dir s it).1 =
          s.1 ++ [(TrimPrefix it.1 (dir ++ "/"),
            { MTime := it.2.ModTime, Size := it.2.Size })] := by
        simp only [recordItem, hd', Bool.not_false, if_true]
        exact put_of_not_mem _ _ _ hnot
      rw [foldl_recordItem dir items _ (by
        rw [hs]
        simp only [List.filter_cons, hd', Bool.not_false, if_true, List.map_cons] at h
        simpa using h), hs]
      simp [hd']


/-- The keys of the items of a well formed tree that are not directories
differ from one another. -/
theorem keys_nodup (cfg : Config) (fs : Node) (h : fs.wellFormed = true) :
    (((Node.items cfg.Root fs).filter fun it => !it.2.IsDir).map
      fun it => logKey cfg it.1).Nodup := by
  cases fs with
  | absent err => simp [Node.wellFormed] at h
  | file kind mtime size => simp [Node.items]
  | dir mtime size readErr entries =>
    cases readErr with
    | some e => simp [Node.items]
    | none =>
      have hw : entries.wellFormed = true := by simpa [Node.wellFormed] using h
      have hp := entries_filePaths _ entries cfg.Root _ hw (parent_root cfg.Root)
      have hr := entries_rels entries hw
      have hk : ((Node.items cfg.Root (.dir mtime size none entries)).filter
          fun it => !it.2.IsDir).map (fun it => logKey cfg it.1) =
          (((Entries.items cfg.Root entries).filter fun it => !it.2.IsDir).map Prod.fst).map
            (logKey cfg) := by
        simp [Node.items]
      rw [hk, hp, List.map_map]
      refine List.Nodup.map_on ?_ hr.2
      refine logKey_injective cfg (Entries.rels entries) (fun rel hrel => ?_)
      obtain ⟨hv, m, -, hl⟩ := hr.1 rel hrel
      refine ⟨hv, fun e => ?_⟩
      rw [e] at hl
      simp at hl

/-- C5 (amended): on every tree in which no `Lstat` fails and the names of a
directory are valid and differ, `loadLogs` returns a nil error and a map that
has exactly one entry for every item of the walk that is not a directory
(regular file, symbolic link, socket, and so on) and none for a directory: the
entries are those items in the order of the walk, each under its key with its
own modification time and size; the keys differ from one another, every such
item is found under its key, and the number of entries is the number of items
that are not directories. -/
theorem inventory_of_walk (cfg : Config) (fs : Node) (h : fs.wellFormed = true) :
    (loadLogs cfg fs).2 = .done none ∧
    (loadLogs cfg fs).1.1 = inventoryOf cfg (Node.items cfg.Root fs) ∧
    ((loadLogs cfg fs).1.1.map Prod.fst).Nodup ∧
    (∀ it ∈ Node.items cfg.Root fs, it.2.IsDir = false →
      FileStore.get (loadLogs cfg fs).1.1 (logKey cfg it.1) =
        some { MTime := it.2.ModTime, Size := it.2.Size }) ∧
    (loadLogs cfg fs).1.1.length =
      ((Node.items cfg.Root fs).filter fun it => !it.2.IsDir).length := by
  have hv := visit_items (TrimSuffix cfg.Root "/") cfg.Root fs ([], []) h
  have hl : loadLogs cfg fs =
      ((Node.items cfg.Root fs).foldl (recordItem (TrimSuffix cfg.Root "/")) ([], []),
        .done none) := by
    unfold loadLogs Walk
    simp only [hv]
  have hn := keys_nodup cfg fs h
  have hf := foldl_recordItem (TrimSuffix cfg.Root "/") (Node.items cfg.Root fs) ([], [])
    (by simpa [logKey] using hn)
  have hfiles : (loadLogs cfg fs).1.1 = inventoryOf cfg (Node.items cfg.Root fs) := by
    rw [hl]
    simp only [hf, inventoryOf, logKey, List.nil_append]
  have hkeys : (inventoryOf cfg (Node.items cfg.Root fs)).map Prod.fst =
      ((Node.items cfg.Root fs).filter fun it => !it.2.IsDir).map fun it => logKey cfg it.1 := by
    simp [inventoryOf]
  refine ⟨by rw [hl], hfiles, ?_, ?_, ?_⟩
  · rw [hfiles, hkeys]
    exact hn
  · intro it hit hd
    rw [hfiles]
    apply get_of_mem _ _ _ (by rw [hkeys]; exact hn)
    unfold inventoryOf
    exact List.mem_map.2 ⟨it, List.mem_filter.2 ⟨hit, by simp [hd]⟩, rfl⟩
  · rw [hfiles]
    simp [inventoryOf]

/-- The inventory theorem on the root with a regular file and a symbolic link. -/
theorem inventory_of_walk_witness :
    linkRoot.wellFormed = true ∧
    (loadLogs defaultConfig linkRoot).1.1 =
      [("app.log", { MTime := 1700, Size := 50000 }), ("current", { MTime := 1800, Size := 7 })] ∧
    (loadLogs defaultConfig linkRoot).1.1.length = 2 :=
  ⟨by decide,
    (inventory_of_walk defaultConfig linkRoot (by decide)).2.1.trans (by decide),
    (inventory_of_walk defaultConfig linkRoot (by decide)).2.2.2.2.trans (by decide)⟩

end WebTail
